import Mathlib

/-!
# terraform-provider-juju: secret access reconciliation and action convergence

A shallow embedding of

* `accessSecretResource.Update` and `accessSecretResource.ImportState`
  (`internal/provider/resource_access_secret.go`),
* `assertActionRunning` and the wait configuration of `actionResource.Create`
  (`internal/provider/resource_action.go`),
* `sshKeysClient.CreateSSHKey` and `sshKeysClient.DeleteSSHKey`
  (`internal/juju/sshKeys.go`),
* `actionsClient.ActionResult` and `actionsClient.EnqueueAction`
  (`internal/juju/actions.go`),

together with the properties the specification states about them.

Go values are embedded as follows.  An `error` is a `GoError` (its message and
the sentinel it was typed with), a nil error is `none`.  A remote collaborator
is a function from the request to its response, and every request made is
recorded in the order it was issued.
-/

set_option autoImplicit false

namespace Juju

/-! ## Go errors -/

/-- A Go `error` value: the text of `Error()` and the sentinel, when there is
one, that `errors.Is` recognises it by. -/
structure GoError where
  msg : String
  sentinel : Option String
  deriving DecidableEq, Repr

/-- The error built by `errors.New(msg)`: recognised by no sentinel. -/
def errorsNew (msg : String) : GoError := ⟨msg, none⟩

/-- The test `errors.Is(err, target)` for a sentinel `target`. -/
def errorsIs (err : GoError) (target : String) : Bool :=
  decide (err.sentinel = some target)

/-! ## `set.Strings`

`github.com/juju/collections/set` is a dependency of the provider.  `Strings`
is a Go `map[string]bool` used as a set of keys.  The keys are kept here in a
list; `Add` is the map assignment `s[value] = true`, which leaves a key that is
already present in place.  Go leaves the order in which a range over a map
yields its keys open, and the order differs from one run to the next: `Values`
takes that order as a parameter, a `MapOrder`, and every statement about the
slice `Values` returns holds for every order. -/

/-- The keys of a `set.Strings`. -/
abbrev Strings := List String

/-- The order in which a range over a Go map yields the keys: some rearrangement
of them, unknown to the program. -/
structure MapOrder where
  order : List String → List String
  perm : ∀ keys : List String, (order keys).Perm keys

/-- The order in which the keys were added. -/
def MapOrder.insertion : MapOrder := ⟨fun keys => keys, fun keys => List.Perm.refl keys⟩

/-- The order opposite to the one in which the keys were added. -/
def MapOrder.reversed : MapOrder := ⟨List.reverse, fun keys => List.reverse_perm keys⟩

/-- The order that starts `n` keys after the first one added and wraps round. -/
def MapOrder.rotated (n : Nat) : MapOrder :=
  ⟨fun keys => keys.rotate n, fun keys => List.rotate_perm keys n⟩

namespace Strings

/-- The method `Contains`: is `value` a key of the map. -/
def Contains (s : Strings) (value : String) : Bool := decide (value ∈ s)

/-- The method `Add`: `s[value] = true`. -/
def Add (s : Strings) (value : String) : Strings :=
  if s.Contains value then s else s ++ [value]

/-- The method `IsEmpty`: `len(s) == 0`. -/
def IsEmpty (s : Strings) : Bool := s.length == 0

/-- The method `Values`: the keys, copied into a slice by a range over the map,
in the order `o` of that range. -/
def Values (s : Strings) (o : MapOrder) : List String := o.order s

/-- The method `Difference`: a fresh set holding every key of `s` that `t`
does not contain.  The result is a set again, so the order of the range over
`s` only shows once `Values` is taken of it. -/
def Difference (s t : Strings) : Strings :=
  s.foldl (fun result value => if !t.Contains value then result.Add value else result) []

end Strings

/-- The constructor `set.NewStrings(initial...)`: every value is added to an
empty set in turn. -/
def NewStrings (initial : List String) : Strings :=
  initial.foldl Strings.Add []

/-! ## The secrets collaborator -/

/-- The two values of `juju.AccessSecretAction`. -/
inductive AccessSecretAction where
  | GrantAccess
  | RevokeAccess
  deriving DecidableEq, Repr

/-- The request `juju.GrantRevokeAccessSecretInput`. -/
structure GrantRevokeAccessSecretInput where
  ModelUUID : String
  SecretId : String
  Applications : List String
  deriving DecidableEq, Repr

/-- One invocation of `Secrets.UpdateAccessSecret(input, action)`. -/
structure UpdateAccessSecretCall where
  input : GrantRevokeAccessSecretInput
  action : AccessSecretAction
  deriving DecidableEq, Repr

/-- The collaborator `s.client.Secrets.UpdateAccessSecret`: the error it
answers a request with, `none` for a nil error. -/
abbrev SecretsClient := GrantRevokeAccessSecretInput → AccessSecretAction → Option GoError

/-! ## `accessSecretResource` -/

/-- The resource model `accessSecretResourceModelV1`, with the values of its
attributes decoded: `applications` is a known list of known strings. -/
structure accessSecretResourceModelV1 where
  ModelUUID : String
  SecretId : String
  Applications : List String
  ID : String
  deriving DecidableEq, Repr

/-- One entry of `resp.Diagnostics` added by `AddError(summary, detail)`. -/
structure Diagnostic where
  summary : String
  detail : String
  deriving DecidableEq, Repr

/-- What an `Update` leaves behind: the collaborator calls it issued, in order,
the diagnostics of the response, and the value handed to `resp.State.Set`
(`none` when `resp.State.Set` is not reached). -/
structure UpdateResponse where
  calls : List UpdateAccessSecretCall
  Diagnostics : List Diagnostic
  State : Option accessSecretResourceModelV1
  deriving DecidableEq, Repr

/-- The diagnostic of `addClientNotConfiguredError` (declared elsewhere in the
provider package); its wording is not used by any statement below. -/
def clientNotConfiguredError (resource method : String) : Diagnostic :=
  ⟨"Provider Error, Client Not Configured",
    "Unable to " ++ method ++ " " ++ resource ++ " resource. Expected configured Juju client."⟩

/-- The set `applicationsToGrant` of `Update`:
`planSet.Difference(stateSet)`. -/
def applicationsToGrant (planApplications stateApplications : List String) : Strings :=
  (NewStrings planApplications).Difference (NewStrings stateApplications)

/-- The set `applicationsToRevoke` of `Update`:
`stateSet.Difference(planSet)`. -/
def applicationsToRevoke (planApplications stateApplications : List String) : Strings :=
  (NewStrings stateApplications).Difference (NewStrings planApplications)

/-- The method `accessSecretResource.Update`.  `client` is `s.client`, `none`
for a provider that has not been configured; `o` is the order in which the two
calls of `Values` range over their maps (the two sets share no member, so one
`o` leaves the two ranges free of each other); `plan` and `state` are the
models read from `req.Plan` and `req.State`.  On decoded models `Plan.Get`,
`State.Get` and `ElementsAs` add no diagnostic, and `Equal` on two known lists
of known strings is equality of the lists, element by element and in order.
The copy of the plan into `updatedAccessSecretInput` is not read afterwards
and is left out. -/
def Update (client : Option SecretsClient) (o : MapOrder)
    (plan state : accessSecretResourceModelV1) : UpdateResponse :=
  match client with
  | none => ⟨[], [clientNotConfiguredError "access_secret" "update"], none⟩
  | some UpdateAccessSecret =>
    if plan.Applications = state.Applications then
      ⟨[], [], none⟩
    else
      let toGrant := applicationsToGrant plan.Applications state.Applications
      let toRevoke := applicationsToRevoke plan.Applications state.Applications
      -- `plan.Applications.ElementsAs(ctx, &state.Applications, false)`
      let state' : accessSecretResourceModelV1 := { state with Applications := plan.Applications }
      let grantInput : GrantRevokeAccessSecretInput :=
        ⟨state'.ModelUUID, state'.SecretId, toGrant.Values o⟩
      let revokeInput : GrantRevokeAccessSecretInput :=
        ⟨state'.ModelUUID, state'.SecretId, toRevoke.Values o⟩
      let grantCalls : List UpdateAccessSecretCall :=
        if !toGrant.IsEmpty then [⟨grantInput, .GrantAccess⟩] else []
      let grantErr : Option GoError :=
        if !toGrant.IsEmpty then UpdateAccessSecret grantInput .GrantAccess else none
      match grantErr with
      | some err =>
        ⟨grantCalls,
          [⟨"Client Error", "Unable to grant secret access, got error: " ++ err.msg⟩], none⟩
      | none =>
        let revokeCalls : List UpdateAccessSecretCall :=
          if !toRevoke.IsEmpty then [⟨revokeInput, .RevokeAccess⟩] else []
        let revokeErr : Option GoError :=
          if !toRevoke.IsEmpty then UpdateAccessSecret revokeInput .RevokeAccess else none
        match revokeErr with
        | some err =>
          ⟨grantCalls ++ revokeCalls,
            [⟨"Client Error", "Unable to revoke secret access, got error: " ++ err.msg⟩], none⟩
        | none => ⟨grantCalls ++ revokeCalls, [], some state'⟩

/-- The request `Update` sends to grant access. -/
def grantCall (o : MapOrder) (plan state : accessSecretResourceModelV1) :
    UpdateAccessSecretCall :=
  ⟨⟨state.ModelUUID, state.SecretId,
    (applicationsToGrant plan.Applications state.Applications).Values o⟩, .GrantAccess⟩

/-- The request `Update` sends to revoke access. -/
def revokeCall (o : MapOrder) (plan state : accessSecretResourceModelV1) :
    UpdateAccessSecretCall :=
  ⟨⟨state.ModelUUID, state.SecretId,
    (applicationsToRevoke plan.Applications state.Applications).Values o⟩, .RevokeAccess⟩

/-! ## Action results -/

/-- The fields of `action.ActionResult` (of the Juju API client) that the
provider reads: the status string, the message, the output and the error. -/
structure ActionResult where
  Status : String
  Message : String
  Output : List (String × String)
  Error : Option GoError
  deriving DecidableEq, Repr

/-- The constant `params.ActionPending` of the Juju API. -/
def ActionPending : String := "pending"

/-- The constant `params.ActionRunning` of the Juju API. -/
def ActionRunning : String := "running"

/-- The constant `params.ActionCompleted` of the Juju API. -/
def ActionCompleted : String := "completed"

/-- The constant `params.ActionFailed` of the Juju API. -/
def ActionFailed : String := "failed"

/-- Modelled from the spec: the sentinel `juju.RetryReadError`, declared in a
file of `internal/juju` that is not among the sources.  It is the error marker
a caller lists to keep polling (the `retryableErrors` of a wait
configuration). -/
def RetryReadError : String := "retry-read-error"

/-- Modelled from the spec: the constructor `juju.NewRetryReadError(msg)`,
declared next to `RetryReadError`: an error with the given message that
`errors.Is` recognises as `RetryReadError`. -/
def NewRetryReadError (msg : String) : GoError := ⟨msg, some RetryReadError⟩

/-- The function `assertActionRunning`. -/
def assertActionRunning (resultFromAPI : ActionResult) : Option GoError :=
  match resultFromAPI.Error with
  | some err => some err
  | none =>
    if resultFromAPI.Status = ActionRunning ∨ resultFromAPI.Status = ActionPending then
      some (NewRetryReadError "action is still running or pending, waiting for completion")
    else if resultFromAPI.Status = ActionCompleted then
      none
    else
      some (errorsNew ("action is not running or completed, status: " ++ resultFromAPI.Status))

/-- The argument `juju.ActionResultArgs` of a fetch. -/
structure ActionResultArgs where
  ModelName : String
  ActionId : String
  deriving DecidableEq, Repr

/-! ## Waiting

The package `internal/wait` is not among the sources; its `WaitFor` is taken
from section 4.1 of the specification.  A fetch is a remote read, so the answer
of `GetData` depends on how many fetches came before it; the cancellation
signal is read before each fetch in the same way. -/

/-- Modelled from the spec: the wait configuration `wait.WaitForCfg` of
`internal/wait`: the cancellation signal (has it fired when consulted before
fetch number `n`), the input, the fetch function, the ordered assertions and the
error markers that mean keep polling. -/
structure WaitForCfg (I D : Type) where
  Context : Nat → Bool
  Input : I
  GetData : I → Nat → Except GoError D
  DataAssertions : List (D → Option GoError)
  NonFatalErrors : List String

/-- Modelled from the spec: how a `WaitFor` ends: with a value every assertion
accepted, with a fatal cause, or cancelled. -/
inductive WaitOutcome (D : Type) where
  | value (data : D)
  | fatal (cause : GoError)
  | cancelled
  deriving DecidableEq, Repr

/-- Modelled from the spec: what a run of `WaitFor` did: its outcome (`none`
while it is still polling when the iteration budget ends) and the number of
fetches it made. -/
structure WaitRun (D : Type) where
  outcome : Option (WaitOutcome D)
  fetches : Nat
  deriving DecidableEq, Repr

/-- Modelled from the spec: an error is retryable when it matches one of the
markers of `retryableErrors`. -/
def isNonFatal (nonFatalErrors : List String) (err : GoError) : Bool :=
  nonFatalErrors.any fun marker => errorsIs err marker

/-- Modelled from the spec: the assertions are evaluated in order against the
fetched value, stopping at the first rejection. -/
def runAssertions {D : Type} : List (D → Option GoError) → D → Option GoError
  | [], _ => none
  | assert :: rest, data =>
    match assert data with
    | some err => some err
    | none => runAssertions rest data

/-- Modelled from the spec: the loop of `WaitFor` (section 4.1), `fetches`
being the number of fetches made so far: (1) return cancelled when the signal
has fired; (2) fetch; (3) on a fetch error, continue if it is retryable and
return it as fatal otherwise; (4) run the assertions; (5) return the value when
all accept, continue on a retryable rejection, return a fatal one. -/
def WaitFor.loop {I D : Type} (cfg : WaitForCfg I D) : Nat → Nat → WaitRun D
  | 0, fetches => ⟨none, fetches⟩
  | budget + 1, fetches =>
    if cfg.Context fetches then
      ⟨some .cancelled, fetches⟩
    else
      match cfg.GetData cfg.Input fetches with
      | .error err =>
        if isNonFatal cfg.NonFatalErrors err then WaitFor.loop cfg budget (fetches + 1)
        else ⟨some (.fatal err), fetches + 1⟩
      | .ok data =>
        match runAssertions cfg.DataAssertions data with
        | none => ⟨some (.value data), fetches + 1⟩
        | some err =>
          if isNonFatal cfg.NonFatalErrors err then WaitFor.loop cfg budget (fetches + 1)
          else ⟨some (.fatal err), fetches + 1⟩

/-- Modelled from the spec: the function `wait.WaitFor` of `internal/wait`, run
for at most `budget` iterations. -/
def WaitFor {I D : Type} (cfg : WaitForCfg I D) (budget : Nat) : WaitRun D :=
  WaitFor.loop cfg budget 0

/-- The wait configuration built by `actionResource.Create`: the context, the
model name and the id of the enqueued action as input, `Actions.ActionResult` as
the fetch, `assertActionRunning` as the single assertion and `RetryReadError` as
the single non fatal error. -/
def actionWaitCfg (ctx : Nat → Bool) (modelName enqActionId : String)
    (ActionResultFn : ActionResultArgs → Nat → Except GoError ActionResult) :
    WaitForCfg ActionResultArgs ActionResult :=
  { Context := ctx
    Input := ⟨modelName, enqActionId⟩
    GetData := ActionResultFn
    DataAssertions := [assertActionRunning]
    NonFatalErrors := [RetryReadError] }

/-- A remote that answers the successive fetches with the results of a list, and
with an error once the list is used up. -/
def fetchSequence (results : List ActionResult) :
    ActionResultArgs → Nat → Except GoError ActionResult :=
  fun _ n =>
    match results.get? n with
    | some result => .ok result
    | none => .error (errorsNew "no further result")

/-- An action result with the given status and nothing else set. -/
def resultWithStatus (status : String) : ActionResult := ⟨status, "", [], none⟩

/-! ## SSH keys (`internal/juju/sshKeys.go`)

The key manager of the Juju API is a collaborator: `ListKeys`, `AddKeys` and
`DeleteKeys` answer with a slice of results and an error.  A run of
`DeleteSSHKey` records the `DeleteKeys` requests it made and the warnings it
logged; it ends by returning an error (or nil), or by a runtime panic. -/

/-- The wire error `params.Error` of the Juju API: its message and its code. -/
structure ParamsError where
  Message : String
  Code : String
  deriving DecidableEq, Repr

/-- The result entry `params.ErrorResult`. -/
structure ErrorResult where
  Error : Option ParamsError
  deriving DecidableEq, Repr

/-- The result entry `params.StringsResult`: the keys listed for one user. -/
structure StringsResult where
  Error : Option ParamsError
  Result : List String
  deriving DecidableEq, Repr

/-- The input `CreateSSHKeyInput`. -/
structure CreateSSHKeyInput where
  Username : String
  ModelName : String
  Payload : String
  deriving DecidableEq, Repr

/-- The input `DeleteSSHKeyInput`. -/
structure DeleteSSHKeyInput where
  Username : String
  ModelName : String
  KeyIdentifier : String
  deriving DecidableEq, Repr

/-- The text `fmt.Sprintf("%s", messages)` of a slice of strings: the elements
separated by one blank, between square brackets. -/
def fmtStrings (messages : List String) : String :=
  "[" ++ " ".intercalate messages ++ "]"

/-- The loop shared by `CreateSSHKey` and `DeleteSSHKey`: the messages of the
entries that carry an error, in the order of the entries. -/
def errorMessages : List ErrorResult → List String
  | [] => []
  | e :: rest =>
    match e.Error with
    | some err => err.Message :: errorMessages rest
    | none => errorMessages rest

/-- The method `sshKeysClient.CreateSSHKey`.  `GetConnection` is the error of
`c.GetConnection` (`none` when the connection is made), `AddKeys` the answer of
the key manager to `AddKeys(user, payload)`. -/
def sshKeysClient.CreateSSHKey (GetConnection : Option GoError)
    (AddKeys : String → String → List ErrorResult × Option GoError)
    (input : CreateSSHKeyInput) : Option GoError :=
  match GetConnection with
  | some err => some err
  | none =>
    match AddKeys input.Username input.Payload with
    | (_, some err) => some err
    | (params, none) =>
      if params.length ≠ 0 then
        let messages := errorMessages params
        if messages.length = 0 then none
        else some (errorsNew (fmtStrings messages))
      else none

/-- A runtime panic of Go: an index that is not below the length. -/
inductive GoPanic where
  | indexOutOfRange (index length : Nat)
  deriving DecidableEq, Repr

deriving instance DecidableEq for Except

/-- One invocation of `client.DeleteKeys(user, key)`. -/
structure DeleteKeysCall where
  user : String
  key : String
  deriving DecidableEq, Repr

/-- What a run of `DeleteSSHKey` did: how it ended (the returned error, `none`
for nil, or a panic), the `DeleteKeys` requests it made, in order, and the
warnings it logged with `c.Warnf`. -/
structure DeleteSSHKeyRun where
  result : Except GoPanic (Option GoError)
  deleteCalls : List DeleteKeysCall
  warnings : List String
  deriving DecidableEq, Repr

/-- The last part of `DeleteSSHKey`, from the call of `client.DeleteKeys`
on. -/
def sshKeysClient.deleteKeys (DeleteKeys : String → String → List ErrorResult × Option GoError)
    (input : DeleteSSHKeyInput) : DeleteSSHKeyRun :=
  match DeleteKeys input.Username input.KeyIdentifier with
  | (params, err) =>
    if params.length ≠ 0 then
      let messages := errorMessages params
      if messages.length = 0 then ⟨.ok none, [⟨input.Username, input.KeyIdentifier⟩], []⟩
      else
        ⟨.ok (some (errorsNew (fmtStrings messages))),
          [⟨input.Username, input.KeyIdentifier⟩], []⟩
    else ⟨.ok err, [⟨input.Username, input.KeyIdentifier⟩], []⟩

/-- The method `sshKeysClient.DeleteSSHKey`.  `GetConnection` is the error of
`c.GetConnection`, `GetKeyIdentifierFromSSHKey` the helper of `internal/utils`
(not among the sources, taken as it comes), `ListKeys` the answer of the key
manager to `ListKeys(ssh.FullKeys, user)` and `DeleteKeys` its answer to
`DeleteKeys(user, key)`. -/
def sshKeysClient.DeleteSSHKey (GetConnection : Option GoError)
    (GetKeyIdentifierFromSSHKey : String → String)
    (ListKeys : String → List StringsResult × Option GoError)
    (DeleteKeys : String → String → List ErrorResult × Option GoError)
    (input : DeleteSSHKeyInput) : DeleteSSHKeyRun :=
  match GetConnection with
  | some err => ⟨.ok (some err), [], []⟩
  | none =>
    match ListKeys input.Username with
    | (_, some err) => ⟨.ok (some err), [], []⟩
    | (returnedKeys, none) =>
      match returnedKeys with
      | [only] =>
        -- `len(returnedKeys) == 1`, then `k := returnedKeys[0].Result[0]`
        match only.Result with
        | [] => ⟨.error (.indexOutOfRange 0 0), [], []⟩
        | k :: _ =>
          if input.KeyIdentifier = GetKeyIdentifierFromSSHKey k then
            ⟨.ok none, [],
              ["ssh key from user " ++ input.KeyIdentifier
                ++ " is the last one and will not be removed"]⟩
          else sshKeysClient.deleteKeys DeleteKeys input
      | _ => sshKeysClient.deleteKeys DeleteKeys input

/-- All the keys a listing holds, result after result. -/
def allKeys : List StringsResult → List String
  | [] => []
  | r :: rest => r.Result ++ allKeys rest

/-- The number of keys a listing holds in total. -/
def totalKeys (returnedKeys : List StringsResult) : Nat :=
  (returnedKeys.map fun r => r.Result.length).sum

/-! ## Import of a secret access (`accessSecretResource.ImportState`) -/

/-- The parts of a text between the occurrences of the character `sep`, on
lists of characters: there is one part more than there are separators. -/
def splitChars (sep : Char) : List Char → List (List Char)
  | [] => [[]]
  | c :: cs =>
    if c = sep then [] :: splitChars sep cs
    else
      match splitChars sep cs with
      | [] => [[c]]
      | part :: parts => (c :: part) :: parts

/-- The function `strings.Split(s, sep)` of the Go library for a separator of
one character. -/
def stringsSplit (s : String) (sep : Char) : List String :=
  (splitChars sep s.data).map String.mk

/-- The fields of `juju.ReadSecretInput` that `ImportState` fills. -/
structure ReadSecretInput where
  ModelUUID : String
  Name : Option String
  deriving DecidableEq, Repr

/-- The fields of `juju.ReadSecretOutput` that `ImportState` reads. -/
structure ReadSecretOutput where
  SecretId : String
  Applications : List String
  deriving DecidableEq, Repr

/-- What an `ImportState` leaves behind: the `ReadSecret` requests it made, the
diagnostics of the response, and the value handed to `resp.State.Set`. -/
structure ImportStateResponse where
  reads : List ReadSecretInput
  Diagnostics : List Diagnostic
  State : Option accessSecretResourceModelV1
  deriving DecidableEq, Repr

/-- The method `accessSecretResource.ImportState`.  `client` is `s.client`
(its `Secrets.ReadSecret`), `none` for a provider that has not been configured;
`quote` is the verb `%q` of `fmt` and `newSecretID` the helper of the provider
package that builds the resource id, both taken as they come; `ID` is
`req.ID`. -/
def ImportState (client : Option (ReadSecretInput → Except GoError ReadSecretOutput))
    (quote : String → String) (newSecretID : String → String → String) (ID : String) :
    ImportStateResponse :=
  match client with
  | none => ⟨[], [clientNotConfiguredError "access secret" "import"], none⟩
  | some ReadSecret =>
    match stringsSplit ID ':' with
    | [modelUUID, secretName] =>
      if modelUUID = "" ∨ secretName = "" then
        ⟨[], [⟨"Unexpected Import Identifier",
          "Expected import identifier with format: <modeluuid>:<secretname>. Got: "
            ++ quote ID⟩], none⟩
      else
        match ReadSecret ⟨modelUUID, some secretName⟩ with
        | .error err =>
          ⟨[⟨modelUUID, some secretName⟩],
            [⟨"Client Error", "Unable to read secret for import, got error: " ++ err.msg⟩],
            none⟩
        | .ok readSecretOutput =>
          ⟨[⟨modelUUID, some secretName⟩], [],
            some ⟨modelUUID, readSecretOutput.SecretId, readSecretOutput.Applications,
              newSecretID modelUUID readSecretOutput.SecretId⟩⟩
    | _ =>
      ⟨[], [⟨"Unexpected Import Identifier",
        "Expected import identifier with format: <modeluuid>:<secretname>. Got: "
          ++ quote ID⟩], none⟩

/-! ## The actions client (`internal/juju/actions.go`) -/

/-- The Go conversion `string(i)` of a non negative integer: the text made of
the one code point `i`, and of U+FFFD when `i` is not a valid code point. -/
def stringOfInt (i : Nat) : String :=
  String.singleton (if i.isValidChar then Char.ofNat i else Char.ofNat 0xFFFD)

/-- The method `actionsClient.ActionResult`.  `GetConnection` is the error of
`c.GetConnection`, `Actions` the answer of the API client to
`Actions([]string{args.ActionId})`. -/
def actionsClient.ActionResult (GetConnection : Option GoError)
    (Actions : List String → List ActionResult × Option GoError) (args : ActionResultArgs) :
    Except GoError ActionResult :=
  match GetConnection with
  | some err => .error err
  | none =>
    match Actions [args.ActionId] with
    | (_, some err) => .error err
    | (results, none) =>
      match results with
      | [result] => .ok result
      | _ =>
        .error (errorsNew ("expected exactly one action result, got "
          ++ stringOfInt results.length))

/-- An entry of `EnqueuedActions.Actions` as `EnqueueAction` reads it: the id
of its `Action`, `none` when the pointer `Action` is nil. -/
structure EnqueuedActionResult where
  Action : Option String
  deriving DecidableEq, Repr

/-- The method `actionsClient.EnqueueAction`, from the answer of the API client
to `EnqueueOperation` on: `GetConnection` is the error of `c.GetConnection`,
`EnqueueOperation` the entries `enqueuedActions.Actions` and the error. -/
def actionsClient.EnqueueAction (GetConnection : Option GoError)
    (EnqueueOperation : List EnqueuedActionResult × Option GoError) : Except GoError String :=
  match GetConnection with
  | some err => .error err
  | none =>
    match EnqueueOperation with
    | (_, some err) => .error err
    | (actions, none) =>
      match actions with
      | [enqueued] =>
        match enqueued.Action with
        | none => .error (errorsNew "enqueued action is nil")
        | some id => .ok id
      | _ =>
        .error (errorsNew ("expected exactly one enqueued action, got "
          ++ stringOfInt actions.length))

/-! ## Membership in the sets of the set library -/

theorem Strings.mem_Add (s : Strings) (value x : String) :
    x ∈ s.Add value ↔ x ∈ s ∨ x = value := by
  unfold Strings.Add Strings.Contains
  by_cases h : value ∈ s
  · simp only [h, decide_True, if_true]
    constructor
    · exact Or.inl
    · rintro (hx | hx)
      · exact hx
      · exact hx ▸ h
  · simp [h]

theorem Strings.nodup_Add (s : Strings) (value : String) (hs : s.Nodup) :
    (s.Add value).Nodup := by
  unfold Strings.Add Strings.Contains
  by_cases h : value ∈ s
  · simpa [h] using hs
  · simp only [h, decide_False, Bool.false_eq_true, if_false]
    exact List.Nodup.append hs (List.nodup_singleton value) (by simpa using h)

/-- Adding the values that pass `keep` to an accumulator, one after the other:
the loop shared by `NewStrings` and `Difference`. -/
theorem Strings.mem_foldl_Add (keep : String → Bool) (l : List String) (acc : Strings)
    (x : String) :
    x ∈ l.foldl (fun result value => if keep value then Strings.Add result value else result) acc
      ↔ x ∈ acc ∨ (x ∈ l ∧ keep x = true) := by
  induction l generalizing acc with
  | nil => simp
  | cons a l ih =>
    rw [List.foldl_cons, ih]
    by_cases ha : keep a = true
    · simp only [ha, if_true, Strings.mem_Add, List.mem_cons]
      constructor
      · rintro ((h | h) | h)
        · exact Or.inl h
        · exact Or.inr ⟨Or.inl h, h ▸ ha⟩
        · exact Or.inr ⟨Or.inr h.1, h.2⟩
      · rintro (h | ⟨h | h, hk⟩)
        · exact Or.inl (Or.inl h)
        · exact Or.inl (Or.inr h)
        · exact Or.inr ⟨h, hk⟩
    · simp only [ha, Bool.false_eq_true, if_false, List.mem_cons]
      constructor
      · rintro (h | h)
        · exact Or.inl h
        · exact Or.inr ⟨Or.inr h.1, h.2⟩
      · rintro (h | ⟨h | h, hk⟩)
        · exact Or.inl h
        · exact absurd (h ▸ hk) ha
        · exact Or.inr ⟨h, hk⟩

theorem Strings.nodup_foldl_Add (keep : String → Bool) (l : List String) (acc : Strings)
    (hacc : acc.Nodup) :
    (l.foldl (fun result value => if keep value then Strings.Add result value else result)
      acc).Nodup := by
  induction l generalizing acc with
  | nil => simpa using hacc
  | cons a l ih =>
    rw [List.foldl_cons]
    apply ih
    by_cases ha : keep a = true
    · simpa [ha] using Strings.nodup_Add acc a hacc
    · simpa [ha] using hacc

theorem NewStrings_eq (initial : List String) :
    NewStrings initial
      = initial.foldl (fun result value => if (fun _ => true) value then Strings.Add result value
          else result) [] := by
  simp [NewStrings]

theorem mem_NewStrings (initial : List String) (x : String) :
    x ∈ NewStrings initial ↔ x ∈ initial := by
  rw [NewStrings_eq, Strings.mem_foldl_Add]
  simp

theorem nodup_NewStrings (initial : List String) : (NewStrings initial).Nodup := by
  rw [NewStrings_eq]
  exact Strings.nodup_foldl_Add _ _ _ List.nodup_nil

theorem Strings.mem_Difference (s t : Strings) (x : String) :
    x ∈ s.Difference t ↔ x ∈ s ∧ x ∉ t := by
  unfold Strings.Difference
  rw [Strings.mem_foldl_Add (fun value => !t.Contains value)]
  simp [Strings.Contains]

theorem Strings.nodup_Difference (s t : Strings) : (s.Difference t).Nodup := by
  unfold Strings.Difference
  exact Strings.nodup_foldl_Add (fun value => !t.Contains value) _ _ List.nodup_nil

theorem Strings.IsEmpty_iff (s : Strings) : s.IsEmpty = true ↔ s = [] := by
  cases s <;> simp [Strings.IsEmpty]

theorem mem_applicationsToGrant (desired previous : List String) (x : String) :
    x ∈ applicationsToGrant desired previous ↔ x ∈ desired ∧ x ∉ previous := by
  simp [applicationsToGrant, Strings.mem_Difference, mem_NewStrings]

theorem mem_applicationsToRevoke (desired previous : List String) (x : String) :
    x ∈ applicationsToRevoke desired previous ↔ x ∈ previous ∧ x ∉ desired := by
  simp [applicationsToRevoke, Strings.mem_Difference, mem_NewStrings]

/-- The calls of an `Update` that gets past the equality test are the grant
call (when there is something to grant) followed, if the grant did not fail, by
the revoke call (when there is something to revoke). -/
theorem Update_calls_sublist (c : SecretsClient) (o : MapOrder)
    (plan state : accessSecretResourceModelV1) :
    (Update (some c) o plan state).calls.Sublist
      [⟨⟨state.ModelUUID, state.SecretId,
          (applicationsToGrant plan.Applications state.Applications).Values o⟩, .GrantAccess⟩,
       ⟨⟨state.ModelUUID, state.SecretId,
          (applicationsToRevoke plan.Applications state.Applications).Values o⟩, .RevokeAccess⟩] := by
  unfold Update
  simp only
  split_ifs <;> (try split) <;> (try split) <;> simp_all

theorem applicationsToGrant_eq_nil_iff (desired previous : List String) :
    applicationsToGrant desired previous = [] ↔ ∀ x ∈ desired, x ∈ previous := by
  rw [List.eq_nil_iff_forall_not_mem]
  simp [mem_applicationsToGrant]

theorem applicationsToRevoke_eq_nil_iff (desired previous : List String) :
    applicationsToRevoke desired previous = [] ↔ ∀ x ∈ previous, x ∈ desired := by
  rw [List.eq_nil_iff_forall_not_mem]
  simp [mem_applicationsToRevoke]

/-- Nothing to grant and nothing to revoke: the two lists hold the same
elements. -/
theorem nothing_to_do_iff (desired previous : List String) :
    (applicationsToGrant desired previous = [] ∧ applicationsToRevoke desired previous = [])
      ↔ desired.toFinset = previous.toFinset := by
  rw [applicationsToGrant_eq_nil_iff, applicationsToRevoke_eq_nil_iff, Finset.ext_iff]
  simp only [List.mem_toFinset]
  constructor
  · rintro ⟨h1, h2⟩ x
    exact ⟨h1 x, h2 x⟩
  · intro h
    exact ⟨fun x hx => (h x).1 hx, fun x hx => (h x).2 hx⟩

theorem applications_ne_of_toGrant (plan state : accessSecretResourceModelV1)
    (h : (applicationsToGrant plan.Applications state.Applications).IsEmpty = false) :
    plan.Applications ≠ state.Applications := by
  intro heq
  have hnil : applicationsToGrant plan.Applications state.Applications = [] := by
    rw [applicationsToGrant_eq_nil_iff, heq]
    exact fun x hx => hx
  rw [hnil] at h
  simp [Strings.IsEmpty] at h

theorem applications_ne_of_toRevoke (plan state : accessSecretResourceModelV1)
    (h : (applicationsToRevoke plan.Applications state.Applications).IsEmpty = false) :
    plan.Applications ≠ state.Applications := by
  intro heq
  have hnil : applicationsToRevoke plan.Applications state.Applications = [] := by
    rw [applicationsToRevoke_eq_nil_iff, heq]
    exact fun x hx => hx
  rw [hnil] at h
  simp [Strings.IsEmpty] at h

theorem Strings.Values_perm (s : Strings) (o : MapOrder) : (s.Values o).Perm s :=
  o.perm s

theorem Strings.mem_Values (s : Strings) (o : MapOrder) (x : String) :
    x ∈ s.Values o ↔ x ∈ s :=
  (o.perm s).mem_iff

theorem Strings.toFinset_Values (s : Strings) (o : MapOrder) :
    (s.Values o).toFinset = s.toFinset :=
  List.toFinset_eq_of_perm _ _ (o.perm s)

theorem toFinset_applicationsToGrant (desired previous : List String) :
    (applicationsToGrant desired previous).toFinset
      = desired.toFinset \ previous.toFinset := by
  ext x
  simp [mem_applicationsToGrant]

theorem toFinset_applicationsToRevoke (desired previous : List String) :
    (applicationsToRevoke desired previous).toFinset
      = previous.toFinset \ desired.toFinset := by
  ext x
  simp [mem_applicationsToRevoke]

/-- Whatever the order of the range, the grant request carries the members of
the set to grant, each once, and they are the members of desired \ previous. -/
theorem grantCall_members (o : MapOrder) (plan state : accessSecretResourceModelV1) :
    (grantCall o plan state).input.Applications.Perm
      (applicationsToGrant plan.Applications state.Applications) ∧
    (grantCall o plan state).input.Applications.toFinset
      = plan.Applications.toFinset \ state.Applications.toFinset :=
  ⟨Strings.Values_perm _ o,
    (Strings.toFinset_Values _ o).trans (toFinset_applicationsToGrant _ _)⟩

/-- Whatever the order of the range, the revoke request carries the members of
the set to revoke, each once, and they are the members of previous \ desired. -/
theorem revokeCall_members (o : MapOrder) (plan state : accessSecretResourceModelV1) :
    (revokeCall o plan state).input.Applications.Perm
      (applicationsToRevoke plan.Applications state.Applications) ∧
    (revokeCall o plan state).input.Applications.toFinset
      = state.Applications.toFinset \ plan.Applications.toFinset :=
  ⟨Strings.Values_perm _ o,
    (Strings.toFinset_Values _ o).trans (toFinset_applicationsToRevoke _ _)⟩

/-! ## Properties of `accessSecretResource.Update` -/

/-- C1: the set `Update` grants is exactly desired \ previous and the set it
revokes is exactly previous \ desired, both lists read as sets: the two computed
sets hold no duplicate, and every grant (revoke) request `Update` issues carries
exactly the members of desired \ previous (previous \ desired), whatever the
order in which the map is ranged over. -/
theorem Update_sets_are_set_differences (c : SecretsClient) (o : MapOrder)
    (plan state : accessSecretResourceModelV1) :
    (applicationsToGrant plan.Applications state.Applications).toFinset
      = plan.Applications.toFinset \ state.Applications.toFinset ∧
    (applicationsToRevoke plan.Applications state.Applications).toFinset
      = state.Applications.toFinset \ plan.Applications.toFinset ∧
    (applicationsToGrant plan.Applications state.Applications).Nodup ∧
    (applicationsToRevoke plan.Applications state.Applications).Nodup ∧
    ∀ call ∈ (Update (some c) o plan state).calls,
      call.input.Applications.toFinset =
        match call.action with
        | .GrantAccess => plan.Applications.toFinset \ state.Applications.toFinset
        | .RevokeAccess => state.Applications.toFinset \ plan.Applications.toFinset := by
  refine ⟨toFinset_applicationsToGrant _ _, toFinset_applicationsToRevoke _ _,
    Strings.nodup_Difference _ _, Strings.nodup_Difference _ _, ?_⟩
  intro call hcall
  have hsub := (Update_calls_sublist c o plan state).subset hcall
  simp only [List.mem_cons, List.mem_singleton, List.not_mem_nil, or_false] at hsub
  rcases hsub with h | h
  · subst h
    exact (grantCall_members o plan state).2
  · subst h
    exact (revokeCall_members o plan state).2

/-- C1 at previous = [alice, bob, alice], desired = [carol, bob, bob]. -/
theorem Update_sets_are_set_differences_witness :
    (applicationsToGrant ["carol", "bob", "bob"] ["alice", "bob", "alice"]).toFinset
      = ["carol", "bob", "bob"].toFinset \ ["alice", "bob", "alice"].toFinset ∧
    applicationsToGrant ["carol", "bob", "bob"] ["alice", "bob", "alice"] = ["carol"] ∧
    applicationsToRevoke ["carol", "bob", "bob"] ["alice", "bob", "alice"] = ["alice"] :=
  ⟨(Update_sets_are_set_differences (fun _ _ => none) MapOrder.insertion
      ⟨"m", "s", ["carol", "bob", "bob"], "m:s"⟩ ⟨"m", "s", ["alice", "bob", "alice"], "m:s"⟩).1,
    by decide, by decide⟩

/-- C2: with a configured client, `Update` issues no `UpdateAccessSecret` call
if and only if the previous and the desired list hold the same elements; lists
that differ only in order or in duplicates get past the equality test and still
issue no call. -/
theorem Update_no_call_iff_same_set (c : SecretsClient) (o : MapOrder)
    (plan state : accessSecretResourceModelV1) :
    (Update (some c) o plan state).calls = []
      ↔ plan.Applications.toFinset = state.Applications.toFinset := by
  by_cases heq : plan.Applications = state.Applications
  · simp [Update, heq]
  · rw [← nothing_to_do_iff, ← Strings.IsEmpty_iff, ← Strings.IsEmpty_iff]
    unfold Update
    simp only [heq, if_false]
    cases hG : (applicationsToGrant plan.Applications state.Applications).IsEmpty <;>
      cases hR : (applicationsToRevoke plan.Applications state.Applications).IsEmpty <;>
      cases h1 : c ⟨state.ModelUUID, state.SecretId,
        (applicationsToGrant plan.Applications state.Applications).Values o⟩ .GrantAccess <;>
      cases h2 : c ⟨state.ModelUUID, state.SecretId,
        (applicationsToRevoke plan.Applications state.Applications).Values o⟩ .RevokeAccess <;>
      simp

/-- C3: when the calls it makes succeed, `Update` issues exactly one grant
request if desired \ previous is not empty, then one revoke request if
previous \ desired is not empty: at most two calls, the grant first.  Whatever
the order `o` in which the two sets are ranged over, the grant request carries
all the members of desired \ previous, each once, and the revoke request all the
members of previous \ desired, each once. -/
theorem Update_calls_when_both_succeed (c : SecretsClient) (o : MapOrder)
    (plan state : accessSecretResourceModelV1)
    (hg : (applicationsToGrant plan.Applications state.Applications).IsEmpty = false →
      c (grantCall o plan state).input .GrantAccess = none)
    (hr : (applicationsToRevoke plan.Applications state.Applications).IsEmpty = false →
      c (revokeCall o plan state).input .RevokeAccess = none) :
    (Update (some c) o plan state).calls
      = (if (applicationsToGrant plan.Applications state.Applications).IsEmpty then []
          else [grantCall o plan state])
        ++ (if (applicationsToRevoke plan.Applications state.Applications).IsEmpty then []
          else [revokeCall o plan state]) ∧
    (Update (some c) o plan state).calls.length ≤ 2 ∧
    (Update (some c) o plan state).Diagnostics = [] ∧
    (grantCall o plan state).action = .GrantAccess ∧
    (grantCall o plan state).input.Applications.Perm
      (applicationsToGrant plan.Applications state.Applications) ∧
    (grantCall o plan state).input.Applications.toFinset
      = plan.Applications.toFinset \ state.Applications.toFinset ∧
    (revokeCall o plan state).action = .RevokeAccess ∧
    (revokeCall o plan state).input.Applications.Perm
      (applicationsToRevoke plan.Applications state.Applications) ∧
    (revokeCall o plan state).input.Applications.toFinset
      = state.Applications.toFinset \ plan.Applications.toFinset := by
  have hcalls : (Update (some c) o plan state).calls
      = (if (applicationsToGrant plan.Applications state.Applications).IsEmpty then []
          else [grantCall o plan state])
        ++ (if (applicationsToRevoke plan.Applications state.Applications).IsEmpty then []
          else [revokeCall o plan state]) ∧
      (Update (some c) o plan state).calls.length ≤ 2 ∧
      (Update (some c) o plan state).Diagnostics = [] := by
    by_cases heq : plan.Applications = state.Applications
    · have hnil := (nothing_to_do_iff plan.Applications state.Applications).2 (by rw [heq])
      rw [(Strings.IsEmpty_iff _).2 hnil.1, (Strings.IsEmpty_iff _).2 hnil.2]
      simp [Update, heq]
    · unfold Update
      simp only [heq, if_false]
      cases hG : (applicationsToGrant plan.Applications state.Applications).IsEmpty <;>
        cases hR : (applicationsToRevoke plan.Applications state.Applications).IsEmpty <;>
        simp_all [grantCall, revokeCall]
  exact ⟨hcalls.1, hcalls.2.1, hcalls.2.2, rfl, (grantCall_members o plan state).1,
    (grantCall_members o plan state).2, rfl, (revokeCall_members o plan state).1,
    (revokeCall_members o plan state).2⟩

/-- C3 at previous = [alice, bob], desired = [bob, carol]: grant [carol], then
revoke [alice], in either order of the ranges; and at previous = [],
desired = [x, y, z]: one grant request, carrying [z, y, x] when the range runs
in the opposite order and [y, z, x] when it starts at the second key. -/
theorem Update_calls_when_both_succeed_witness :
    (Update (some fun _ _ => none) MapOrder.insertion ⟨"m", "s", ["bob", "carol"], "m:s"⟩
        ⟨"m", "s", ["alice", "bob"], "m:s"⟩).calls
      = [⟨⟨"m", "s", ["carol"]⟩, .GrantAccess⟩, ⟨⟨"m", "s", ["alice"]⟩, .RevokeAccess⟩] ∧
    (Update (some fun _ _ => none) MapOrder.reversed ⟨"m", "s", ["bob", "carol"], "m:s"⟩
        ⟨"m", "s", ["alice", "bob"], "m:s"⟩).calls
      = [⟨⟨"m", "s", ["carol"]⟩, .GrantAccess⟩, ⟨⟨"m", "s", ["alice"]⟩, .RevokeAccess⟩] ∧
    (Update (some fun _ _ => none) MapOrder.reversed ⟨"m", "s", ["x", "y", "z"], "m:s"⟩
        ⟨"m", "s", [], "m:s"⟩).calls
      = [⟨⟨"m", "s", ["z", "y", "x"]⟩, .GrantAccess⟩] ∧
    (Update (some fun _ _ => none) (MapOrder.rotated 1) ⟨"m", "s", ["x", "y", "z"], "m:s"⟩
        ⟨"m", "s", [], "m:s"⟩).calls
      = [⟨⟨"m", "s", ["y", "z", "x"]⟩, .GrantAccess⟩] :=
  ⟨(Update_calls_when_both_succeed (fun _ _ => none) MapOrder.insertion
      ⟨"m", "s", ["bob", "carol"], "m:s"⟩ ⟨"m", "s", ["alice", "bob"], "m:s"⟩
      (fun _ => rfl) (fun _ => rfl)).1.trans (by decide),
    (Update_calls_when_both_succeed (fun _ _ => none) MapOrder.reversed
      ⟨"m", "s", ["bob", "carol"], "m:s"⟩ ⟨"m", "s", ["alice", "bob"], "m:s"⟩
      (fun _ => rfl) (fun _ => rfl)).1.trans (by decide),
    (Update_calls_when_both_succeed (fun _ _ => none) MapOrder.reversed
      ⟨"m", "s", ["x", "y", "z"], "m:s"⟩ ⟨"m", "s", [], "m:s"⟩
      (fun _ => rfl) (fun _ => rfl)).1.trans (by decide),
    (Update_calls_when_both_succeed (fun _ _ => none) (MapOrder.rotated 1)
      ⟨"m", "s", ["x", "y", "z"], "m:s"⟩ ⟨"m", "s", [], "m:s"⟩
      (fun _ => rfl) (fun _ => rfl)).1.trans (by decide)⟩

/-- C4: when there is something to grant and the grant request `Update` sends
fails, `Update` issues that request only (no revoke request), reports the error
of the grant leg and does not reach `resp.State.Set`.  The request is the one of
the run: its members are those of desired \ previous, each once, in the order
`o` of the range, whatever that order is. -/
theorem Update_grant_failure (c : SecretsClient) (o : MapOrder)
    (plan state : accessSecretResourceModelV1)
    (err : GoError)
    (hne : (applicationsToGrant plan.Applications state.Applications).IsEmpty = false)
    (hfail : c (grantCall o plan state).input .GrantAccess = some err) :
    Update (some c) o plan state
      = ⟨[grantCall o plan state],
          [⟨"Client Error", "Unable to grant secret access, got error: " ++ err.msg⟩], none⟩ ∧
    (∀ call ∈ (Update (some c) o plan state).calls, call.action ≠ .RevokeAccess) ∧
    (grantCall o plan state).action = .GrantAccess ∧
    (grantCall o plan state).input.Applications.Perm
      (applicationsToGrant plan.Applications state.Applications) ∧
    (grantCall o plan state).input.Applications.toFinset
      = plan.Applications.toFinset \ state.Applications.toFinset := by
  have heq := applications_ne_of_toGrant plan state hne
  have hU : Update (some c) o plan state
      = ⟨[grantCall o plan state],
          [⟨"Client Error", "Unable to grant secret access, got error: " ++ err.msg⟩], none⟩ := by
    unfold Update
    simp only [heq, if_false]
    simp_all [grantCall]
  refine ⟨hU, ?_, rfl, (grantCall_members o plan state).1, (grantCall_members o plan state).2⟩
  rw [hU]
  intro call hcall
  simp only [List.mem_singleton] at hcall
  subst hcall
  simp [grantCall]

/-- C4 at previous = [alice, bob], desired = [bob, carol, dave] with a remote
that rejects every grant and the range in the opposite order: the one request
carries [dave, carol]. -/
theorem Update_grant_failure_witness :
    Update (some fun _ a => if a = .GrantAccess then some (errorsNew "denied") else none)
        MapOrder.reversed
        ⟨"m", "s", ["bob", "carol", "dave"], "m:s"⟩ ⟨"m", "s", ["alice", "bob"], "m:s"⟩
      = ⟨[⟨⟨"m", "s", ["dave", "carol"]⟩, .GrantAccess⟩],
          [⟨"Client Error", "Unable to grant secret access, got error: denied"⟩], none⟩ :=
  (Update_grant_failure
    (fun _ a => if a = .GrantAccess then some (errorsNew "denied") else none)
    MapOrder.reversed
    ⟨"m", "s", ["bob", "carol", "dave"], "m:s"⟩ ⟨"m", "s", ["alice", "bob"], "m:s"⟩
    (errorsNew "denied") (by decide) (by decide)).1.trans (by decide)

/-- C5: when the grant leg succeeds and the revoke request `Update` sends fails,
`Update` reports the error of the revoke leg only, issues no call after the
failed revoke (the grant is not rolled back) and does not reach
`resp.State.Set`.  The requests are those of the run: their members are those of
desired \ previous and of previous \ desired, each once, in the order `o` of the
ranges, whatever that order is. -/
theorem Update_revoke_failure (c : SecretsClient) (o : MapOrder)
    (plan state : accessSecretResourceModelV1)
    (err : GoError)
    (hg : (applicationsToGrant plan.Applications state.Applications).IsEmpty = false →
      c (grantCall o plan state).input .GrantAccess = none)
    (hne : (applicationsToRevoke plan.Applications state.Applications).IsEmpty = false)
    (hfail : c (revokeCall o plan state).input .RevokeAccess = some err) :
    Update (some c) o plan state
      = ⟨(if (applicationsToGrant plan.Applications state.Applications).IsEmpty then []
            else [grantCall o plan state]) ++ [revokeCall o plan state],
          [⟨"Client Error", "Unable to revoke secret access, got error: " ++ err.msg⟩],
          none⟩ ∧
    (grantCall o plan state).action = .GrantAccess ∧
    (grantCall o plan state).input.Applications.Perm
      (applicationsToGrant plan.Applications state.Applications) ∧
    (revokeCall o plan state).action = .RevokeAccess ∧
    (revokeCall o plan state).input.Applications.Perm
      (applicationsToRevoke plan.Applications state.Applications) ∧
    (revokeCall o plan state).input.Applications.toFinset
      = state.Applications.toFinset \ plan.Applications.toFinset := by
  have heq := applications_ne_of_toRevoke plan state hne
  refine ⟨?_, rfl, (grantCall_members o plan state).1, rfl, (revokeCall_members o plan state).1,
    (revokeCall_members o plan state).2⟩
  unfold Update
  simp only [heq, if_false]
  cases hG : (applicationsToGrant plan.Applications state.Applications).IsEmpty <;>
    simp_all [grantCall, revokeCall]

/-- C5 at previous = [alice, bob, erin], desired = [bob, carol, dave] with a
remote that accepts the grant and rejects the revoke, the ranges in the opposite
order: the grant of [dave, carol] stays applied, the revoke of [erin, alice] is
the last call. -/
theorem Update_revoke_failure_witness :
    Update (some fun _ a => if a = .RevokeAccess then some (errorsNew "denied") else none)
        MapOrder.reversed
        ⟨"m", "s", ["bob", "carol", "dave"], "m:s"⟩ ⟨"m", "s", ["alice", "bob", "erin"], "m:s"⟩
      = ⟨[⟨⟨"m", "s", ["dave", "carol"]⟩, .GrantAccess⟩,
          ⟨⟨"m", "s", ["erin", "alice"]⟩, .RevokeAccess⟩],
          [⟨"Client Error", "Unable to revoke secret access, got error: denied"⟩], none⟩ :=
  (Update_revoke_failure
    (fun _ a => if a = .RevokeAccess then some (errorsNew "denied") else none)
    MapOrder.reversed
    ⟨"m", "s", ["bob", "carol", "dave"], "m:s"⟩ ⟨"m", "s", ["alice", "bob", "erin"], "m:s"⟩
    (errorsNew "denied") (fun _ => by decide) (by decide) (by decide)).1.trans (by decide)

/-- C10: the set to grant and the set to revoke of an `Update` are disjoint, and
no application is carried both by a grant request and by a revoke request of the
same update. -/
theorem Update_grant_revoke_disjoint (c : SecretsClient) (o : MapOrder)
    (plan state : accessSecretResourceModelV1) :
    Disjoint (applicationsToGrant plan.Applications state.Applications).toFinset
      (applicationsToRevoke plan.Applications state.Applications).toFinset ∧
    ∀ g ∈ (Update (some c) o plan state).calls, ∀ r ∈ (Update (some c) o plan state).calls,
      g.action = .GrantAccess → r.action = .RevokeAccess →
      List.Disjoint g.input.Applications r.input.Applications := by
  have hd : ∀ x, x ∈ applicationsToGrant plan.Applications state.Applications →
      x ∈ applicationsToRevoke plan.Applications state.Applications → False := by
    intro x hx hy
    rw [mem_applicationsToGrant] at hx
    rw [mem_applicationsToRevoke] at hy
    exact hy.2 hx.1
  refine ⟨?_, ?_⟩
  · rw [Finset.disjoint_left]
    intro x hx hy
    exact hd x (List.mem_toFinset.1 hx) (List.mem_toFinset.1 hy)
  · intro g hgm r hrm hga hra
    have hg1 := (Update_calls_sublist c o plan state).subset hgm
    have hr1 := (Update_calls_sublist c o plan state).subset hrm
    simp only [List.mem_cons, List.mem_singleton, List.not_mem_nil, or_false] at hg1 hr1
    rcases hg1 with h | h
    · rcases hr1 with h2 | h2
      · subst h2
        cases hra
      · subst h
        subst h2
        intro x hx hy
        exact hd x ((Strings.mem_Values _ o x).1 hx) ((Strings.mem_Values _ o x).1 hy)
    · subst h
      cases hga

/-- C10 at previous = [alice, bob], desired = [bob, carol]. -/
theorem Update_grant_revoke_disjoint_witness :
    Disjoint (applicationsToGrant ["bob", "carol"] ["alice", "bob"]).toFinset
      (applicationsToRevoke ["bob", "carol"] ["alice", "bob"]).toFinset :=
  (Update_grant_revoke_disjoint (fun _ _ => none) MapOrder.insertion
    ⟨"m", "s", ["bob", "carol"], "m:s"⟩ ⟨"m", "s", ["alice", "bob"], "m:s"⟩).1

/-! ## Properties of `assertActionRunning` and of waiting for an action -/

theorem assertActionRunning_of_no_error (r : ActionResult) (hE : r.Error = none) :
    assertActionRunning r =
      if r.Status = ActionRunning ∨ r.Status = ActionPending then
        some (NewRetryReadError "action is still running or pending, waiting for completion")
      else if r.Status = ActionCompleted then none
      else some (errorsNew ("action is not running or completed, status: " ++ r.Status)) := by
  unfold assertActionRunning
  rw [hE]

theorem assertActionRunning_of_error (r : ActionResult) (err : GoError)
    (hE : r.Error = some err) : assertActionRunning r = some err := by
  unfold assertActionRunning
  rw [hE]

/-- C6, as stated, fails: a result whose status is Running and whose `Error` is
set is answered with that error, which is not the retry marker. -/
theorem assertActionRunning_running_with_error :
    (⟨ActionRunning, "", [], some (errorsNew "boom")⟩ : ActionResult).Status = ActionRunning ∧
    assertActionRunning ⟨ActionRunning, "", [], some (errorsNew "boom")⟩
      = some (errorsNew "boom") ∧
    errorsIs (errorsNew "boom") RetryReadError = false := by
  decide

/-- C6, amended: for every action result that carries no error and whose status
is Pending or Running, `assertActionRunning` returns the `RetryReadError`
marker, which the wait configuration of `Create` lists in `NonFatalErrors`. -/
theorem assertActionRunning_pending_running_retryable (r : ActionResult)
    (hE : r.Error = none) (hS : r.Status = ActionPending ∨ r.Status = ActionRunning) :
    assertActionRunning r
      = some (NewRetryReadError "action is still running or pending, waiting for completion") ∧
    errorsIs (NewRetryReadError "action is still running or pending, waiting for completion")
      RetryReadError = true ∧
    ∀ (ctx : Nat → Bool) (modelName enqActionId : String)
      (fetch : ActionResultArgs → Nat → Except GoError ActionResult),
      RetryReadError ∈ (actionWaitCfg ctx modelName enqActionId fetch).NonFatalErrors := by
  refine ⟨?_, by decide, ?_⟩
  · rw [assertActionRunning_of_no_error r hE, if_pos (Or.symm hS)]
  · intro ctx modelName enqActionId fetch
    simp [actionWaitCfg]

/-- C6, amended, at a pending result. -/
theorem assertActionRunning_pending_running_retryable_witness :
    assertActionRunning (resultWithStatus ActionPending)
      = some (NewRetryReadError "action is still running or pending, waiting for completion") :=
  (assertActionRunning_pending_running_retryable (resultWithStatus ActionPending) rfl
    (Or.inl rfl)).1

/-- C7: `assertActionRunning` accepts (returns nil) only if the status of the
result is Completed (and the result carries no error). -/
theorem assertActionRunning_accepts_only_completed (r : ActionResult)
    (h : assertActionRunning r = none) : r.Status = ActionCompleted ∧ r.Error = none := by
  cases hE : r.Error with
  | some err =>
    rw [assertActionRunning_of_error r err hE] at h
    cases h
  | none =>
    rw [assertActionRunning_of_no_error r hE] at h
    refine ⟨?_, rfl⟩
    by_contra hne
    split_ifs at h

/-- C7 at a completed result, which is accepted. -/
theorem assertActionRunning_accepts_only_completed_witness :
    assertActionRunning (resultWithStatus ActionCompleted) = none ∧
    (resultWithStatus ActionCompleted).Status = ActionCompleted :=
  ⟨by decide, (assertActionRunning_accepts_only_completed (resultWithStatus ActionCompleted)
    (by decide)).1⟩

/-- C8, as stated, fails: a result whose status is Failed and whose `Error` is
itself a retry marker is answered with that marker. -/
theorem assertActionRunning_failed_with_retry_error :
    ActionFailed ≠ ActionPending ∧ ActionFailed ≠ ActionRunning ∧
    ActionFailed ≠ ActionCompleted ∧
    assertActionRunning ⟨ActionFailed, "", [], some (NewRetryReadError "try again")⟩
      = some (NewRetryReadError "try again") ∧
    errorsIs (NewRetryReadError "try again") RetryReadError = true := by
  decide

/-- C8, amended: for every action result whose status is neither Pending,
Running nor Completed, `assertActionRunning` returns a non nil error; when the
status rule produces it (the result carries no error) it is the plain error
whose message ends with the offending status, not a retry marker; and the
returned error is a retry marker only when it is the error the result itself
carries. -/
theorem assertActionRunning_other_status_fatal (r : ActionResult)
    (hP : r.Status ≠ ActionPending) (hR : r.Status ≠ ActionRunning)
    (hC : r.Status ≠ ActionCompleted) :
    assertActionRunning r ≠ none ∧
    (r.Error = none →
      assertActionRunning r
        = some (errorsNew ("action is not running or completed, status: " ++ r.Status)) ∧
      errorsIs (errorsNew ("action is not running or completed, status: " ++ r.Status))
        RetryReadError = false) ∧
    ∀ err, assertActionRunning r = some err → errorsIs err RetryReadError = true →
      r.Error = some err := by
  have hrule : r.Error = none → assertActionRunning r
      = some (errorsNew ("action is not running or completed, status: " ++ r.Status)) := by
    intro hE
    rw [assertActionRunning_of_no_error r hE, if_neg (by tauto), if_neg hC]
  have hcases : r.Error = none ∨ ∃ e, r.Error = some e := by
    cases r.Error <;> simp
  rcases hcases with hE | ⟨e, hE⟩
  · rw [hrule hE]
    refine ⟨by simp, fun _ => ⟨rfl, by simp [errorsIs, errorsNew]⟩, ?_⟩
    intro err h hretry
    rw [← Option.some.inj h] at hretry
    simp [errorsIs, errorsNew] at hretry
  · rw [assertActionRunning_of_error r e hE]
    refine ⟨by simp, ?_, ?_⟩
    · intro h
      rw [hE] at h
      cases h
    · intro err h _
      rw [hE, h]

/-- C8, amended, at a failed result and at a result with an empty status. -/
theorem assertActionRunning_other_status_fatal_witness :
    assertActionRunning (resultWithStatus ActionFailed)
      = some (errorsNew "action is not running or completed, status: failed") ∧
    assertActionRunning (resultWithStatus "") ≠ none :=
  ⟨((assertActionRunning_other_status_fatal (resultWithStatus ActionFailed) (by decide)
      (by decide) (by decide)).2.1 rfl).1,
    (assertActionRunning_other_status_fatal (resultWithStatus "") (by decide) (by decide)
      (by decide)).1⟩

theorem WaitFor.loop_retry {I D : Type} (cfg : WaitForCfg I D) (budget n : Nat) (d : D)
    (err : GoError) (hctx : cfg.Context n = false) (hget : cfg.GetData cfg.Input n = .ok d)
    (hrej : runAssertions cfg.DataAssertions d = some err)
    (hretry : isNonFatal cfg.NonFatalErrors err = true) :
    WaitFor.loop cfg (budget + 1) n = WaitFor.loop cfg budget (n + 1) := by
  rw [WaitFor.loop]
  simp [hctx, hget, hrej, hretry]

theorem WaitFor.loop_accept {I D : Type} (cfg : WaitForCfg I D) (budget n : Nat) (d : D)
    (hctx : cfg.Context n = false) (hget : cfg.GetData cfg.Input n = .ok d)
    (hacc : runAssertions cfg.DataAssertions d = none) :
    WaitFor.loop cfg (budget + 1) n = ⟨some (.value d), n + 1⟩ := by
  rw [WaitFor.loop]
  simp [hctx, hget, hacc]

theorem WaitFor.loop_fatal {I D : Type} (cfg : WaitForCfg I D) (budget n : Nat) (d : D)
    (err : GoError) (hctx : cfg.Context n = false) (hget : cfg.GetData cfg.Input n = .ok d)
    (hrej : runAssertions cfg.DataAssertions d = some err)
    (hfatal : isNonFatal cfg.NonFatalErrors err = false) :
    WaitFor.loop cfg (budget + 1) n = ⟨some (.fatal err), n + 1⟩ := by
  rw [WaitFor.loop]
  simp [hctx, hget, hrej, hfatal]

/-- The loop passes over `k` fetches that each end in a retryable rejection. -/
theorem WaitFor.loop_skip {I D : Type} (cfg : WaitForCfg I D) (budget k : Nat) :
    ∀ n : Nat,
      (∀ i, i < k → cfg.Context (n + i) = false) →
      (∀ i, i < k → ∃ d err, cfg.GetData cfg.Input (n + i) = .ok d ∧
        runAssertions cfg.DataAssertions d = some err ∧
        isNonFatal cfg.NonFatalErrors err = true) →
      WaitFor.loop cfg (budget + k) n = WaitFor.loop cfg budget (n + k) := by
  induction k with
  | zero => intro n _ _; rfl
  | succ k ih =>
    intro n hctx hpoll
    obtain ⟨d, err, hget, hrej, hretry⟩ := hpoll 0 (Nat.succ_pos k)
    have h0 := hctx 0 (Nat.succ_pos k)
    rw [Nat.add_zero] at hget h0
    have hstep : WaitFor.loop cfg (budget + (k + 1)) n = WaitFor.loop cfg (budget + k) (n + 1) :=
      WaitFor.loop_retry cfg (budget + k) n d err h0 hget hrej hretry
    rw [hstep, ih (n + 1)]
    · rw [Nat.add_assoc, Nat.add_comm 1 k]
    · intro i hi
      have := hctx (i + 1) (Nat.succ_lt_succ hi)
      rwa [Nat.add_assoc, Nat.add_comm 1 i]
    · intro i hi
      have := hpoll (i + 1) (Nat.succ_lt_succ hi)
      rwa [Nat.add_assoc, Nat.add_comm 1 i]

theorem runAssertions_action (r : ActionResult) (ctx : Nat → Bool) (modelName enqActionId : String)
    (fetch : ActionResultArgs → Nat → Except GoError ActionResult) :
    runAssertions (actionWaitCfg ctx modelName enqActionId fetch).DataAssertions r
      = assertActionRunning r := by
  simp only [actionWaitCfg, runAssertions]
  cases assertActionRunning r <;> rfl

/-- C9, as stated, fails: in the fetch sequence [Pending, Completed] whose
pending result carries an error, the wait ends with that error after one fetch,
not with the completed result after two. -/
theorem WaitFor_pending_with_error_stops :
    (⟨ActionPending, "", [], some (errorsNew "boom")⟩ : ActionResult).Status = ActionPending ∧
    (resultWithStatus ActionCompleted).Status = ActionCompleted ∧
    WaitFor (actionWaitCfg (fun _ => false) "m" "1"
        (fetchSequence [⟨ActionPending, "", [], some (errorsNew "boom")⟩,
          resultWithStatus ActionCompleted])) 10
      = ⟨some (.fatal (errorsNew "boom")), 1⟩ ∧
    WaitFor (actionWaitCfg (fun _ => false) "m" "1"
        (fetchSequence [⟨ActionPending, "", [], some (errorsNew "boom")⟩,
          resultWithStatus ActionCompleted])) 10
      ≠ ⟨some (.value (resultWithStatus ActionCompleted)), 2⟩ := by
  decide

/-- C9, amended: when the first `k` fetches return results that carry no error
and have status Pending or Running, fetch `k + 1` returns a terminal result that
carries no error, and the context is not cancelled before it, waiting with
`assertActionRunning` as the single assertion makes exactly `k + 1` fetches
whatever the budget above `k`, and returns the terminal result when its status
is Completed and the fatal status error when it is Failed. -/
theorem WaitFor_action_terminates (ctx : Nat → Bool) (modelName enqActionId : String)
    (fetch : ActionResultArgs → Nat → Except GoError ActionResult) (k budget : Nat)
    (terminal : ActionResult)
    (hctx : ∀ i, i ≤ k → ctx i = false)
    (hpoll : ∀ i, i < k → ∃ r, fetch ⟨modelName, enqActionId⟩ i = .ok r ∧ r.Error = none ∧
      (r.Status = ActionPending ∨ r.Status = ActionRunning))
    (hterm : fetch ⟨modelName, enqActionId⟩ k = .ok terminal)
    (hnoerr : terminal.Error = none)
    (hbudget : k < budget) :
    (terminal.Status = ActionCompleted →
      WaitFor (actionWaitCfg ctx modelName enqActionId fetch) budget
        = ⟨some (.value terminal), k + 1⟩) ∧
    (terminal.Status = ActionFailed →
      WaitFor (actionWaitCfg ctx modelName enqActionId fetch) budget
        = ⟨some (.fatal (errorsNew "action is not running or completed, status: failed")),
            k + 1⟩) := by
  obtain ⟨b, rfl⟩ : ∃ b, budget = (b + 1) + k := ⟨budget - k - 1, by omega⟩
  have hskip : WaitFor (actionWaitCfg ctx modelName enqActionId fetch) ((b + 1) + k)
      = WaitFor.loop (actionWaitCfg ctx modelName enqActionId fetch) (b + 1) k := by
    unfold WaitFor
    rw [WaitFor.loop_skip _ (b + 1) k 0, Nat.zero_add]
    · intro i hi
      rw [Nat.zero_add]
      exact hctx i (Nat.le_of_lt hi)
    · intro i hi
      obtain ⟨r, hget, hE, hS⟩ := hpoll i hi
      rw [Nat.zero_add]
      refine ⟨r, NewRetryReadError "action is still running or pending, waiting for completion",
        hget, ?_, ?_⟩
      swap
      · show isNonFatal [RetryReadError] _ = true
        decide
      rw [runAssertions_action, assertActionRunning_of_no_error r hE, if_pos (Or.symm hS)]
  have hk : (actionWaitCfg ctx modelName enqActionId fetch).Context k = false :=
    hctx k (Nat.le_refl k)
  rw [hskip]
  constructor
  · intro hS
    apply WaitFor.loop_accept _ b k terminal hk hterm
    rw [runAssertions_action, assertActionRunning_of_no_error terminal hnoerr, hS]
    decide
  · intro hS
    apply WaitFor.loop_fatal _ b k terminal _ hk hterm
    · rw [runAssertions_action, assertActionRunning_of_no_error terminal hnoerr, hS]
      decide
    · show isNonFatal [RetryReadError] _ = false
      decide

/-- C9, amended, at the fetch sequences [Pending, Running, Completed] (success
after exactly 3 fetches) and [Pending, Failed] (fatal error after exactly 2). -/
theorem WaitFor_action_terminates_witness :
    WaitFor (actionWaitCfg (fun _ => false) "m" "1"
        (fetchSequence [resultWithStatus ActionPending, resultWithStatus ActionRunning,
          resultWithStatus ActionCompleted])) 10
      = ⟨some (.value (resultWithStatus ActionCompleted)), 3⟩ ∧
    WaitFor (actionWaitCfg (fun _ => false) "m" "1"
        (fetchSequence [resultWithStatus ActionPending, resultWithStatus ActionFailed])) 10
      = ⟨some (.fatal (errorsNew "action is not running or completed, status: failed")), 2⟩ :=
  ⟨(WaitFor_action_terminates (fun _ => false) "m" "1"
      (fetchSequence [resultWithStatus ActionPending, resultWithStatus ActionRunning,
        resultWithStatus ActionCompleted]) 2 10 (resultWithStatus ActionCompleted)
      (fun _ _ => rfl)
      (fun i hi => by
        have hi2 : i = 0 ∨ i = 1 := by omega
        rcases hi2 with rfl | rfl
        · exact ⟨resultWithStatus ActionPending, rfl, rfl, Or.inl rfl⟩
        · exact ⟨resultWithStatus ActionRunning, rfl, rfl, Or.inr rfl⟩)
      rfl rfl (by decide)).1 rfl,
   (WaitFor_action_terminates (fun _ => false) "m" "1"
      (fetchSequence [resultWithStatus ActionPending, resultWithStatus ActionFailed]) 1 10
      (resultWithStatus ActionFailed)
      (fun _ _ => rfl)
      (fun i hi => by
        have hi2 : i = 0 := by omega
        subst hi2
        exact ⟨resultWithStatus ActionPending, rfl, rfl, Or.inl rfl⟩)
      rfl rfl (by decide)).2 rfl⟩

/-! ## Further properties of `accessSecretResource.Update` -/

/-- C11: with the sets computed by `Update`, toAdd ∪ previous contains
desired \ toRemove, and applying the plan to previous reaches desired exactly:
(previous ∪ toAdd) \ toRemove = desired, all as sets. -/
theorem Update_plan_reaches_desired (plan state : accessSecretResourceModelV1) :
    plan.Applications.toFinset
        \ (applicationsToRevoke plan.Applications state.Applications).toFinset
      ⊆ (applicationsToGrant plan.Applications state.Applications).toFinset
        ∪ state.Applications.toFinset ∧
    (state.Applications.toFinset
        ∪ (applicationsToGrant plan.Applications state.Applications).toFinset)
        \ (applicationsToRevoke plan.Applications state.Applications).toFinset
      = plan.Applications.toFinset := by
  constructor
  · intro x hx
    simp only [Finset.mem_sdiff, Finset.mem_union, List.mem_toFinset, mem_applicationsToGrant,
      mem_applicationsToRevoke] at hx ⊢
    by_cases hp : x ∈ state.Applications
    · exact Or.inr hp
    · exact Or.inl ⟨hx.1, hp⟩
  · ext x
    simp only [Finset.mem_sdiff, Finset.mem_union, List.mem_toFinset, mem_applicationsToGrant,
      mem_applicationsToRevoke]
    constructor
    · rintro ⟨h | h, hn⟩
      · by_contra hd
        exact hn ⟨h, hd⟩
      · exact h.1
    · intro hd
      by_cases hp : x ∈ state.Applications
      · exact ⟨Or.inl hp, fun h => h.2 hd⟩
      · exact ⟨Or.inr ⟨hd, hp⟩, fun h => hp h.1⟩

/-- C12: after an `Update` that succeeds (no diagnostic), the state it saves
holds the desired list, and an `Update` run again with that state and the same
desired list issues no call.  When `resp.State.Set` was reached the saved state
is the value it was given; when it was not, the update returned at the equality
test and the state it was given already holds the desired list. -/
theorem Update_idempotent (c c' : SecretsClient) (o o' : MapOrder)
    (plan state : accessSecretResourceModelV1)
    (hok : (Update (some c) o plan state).Diagnostics = []) :
    (∀ saved, (Update (some c) o plan state).State = some saved →
      saved.Applications = plan.Applications ∧ (Update (some c') o' plan saved).calls = [] ∧
      (Update (some c') o' plan saved).Diagnostics = []) ∧
    ((Update (some c) o plan state).State = none →
      state.Applications = plan.Applications ∧ (Update (some c') o' plan state).calls = []) := by
  by_cases heq : plan.Applications = state.Applications
  · constructor
    · intro saved hsaved
      simp [Update, heq] at hsaved
    · intro _
      exact ⟨heq.symm, by simp [Update, heq]⟩
  · have hstate : (Update (some c) o plan state).State
        = some { state with Applications := plan.Applications } := by
      revert hok
      unfold Update
      simp only [heq, if_false]
      cases hG : (applicationsToGrant plan.Applications state.Applications).IsEmpty <;>
        cases hR : (applicationsToRevoke plan.Applications state.Applications).IsEmpty <;>
        cases h1 : c ⟨state.ModelUUID, state.SecretId,
          (applicationsToGrant plan.Applications state.Applications).Values o⟩ .GrantAccess <;>
        cases h2 : c ⟨state.ModelUUID, state.SecretId,
          (applicationsToRevoke plan.Applications state.Applications).Values o⟩ .RevokeAccess <;>
        simp
    constructor
    · intro saved hsaved
      rw [hstate] at hsaved
      have hs : saved.Applications = plan.Applications := by
        rw [← Option.some.inj hsaved]
      exact ⟨hs, by simp [Update, hs], by simp [Update, hs]⟩
    · intro hnone
      rw [hstate] at hnone
      cases hnone

/-- C12 at previous = [alice, bob], desired = [bob, carol]: the first update
saves [bob, carol], the second one issues no call. -/
theorem Update_idempotent_witness :
    (Update (some fun _ _ => none) MapOrder.insertion ⟨"m", "s", ["bob", "carol"], "m:s"⟩
        ⟨"m", "s", ["alice", "bob"], "m:s"⟩).State
      = some ⟨"m", "s", ["bob", "carol"], "m:s"⟩ ∧
    (Update (some fun _ _ => none) MapOrder.insertion ⟨"m", "s", ["bob", "carol"], "m:s"⟩
        ⟨"m", "s", ["bob", "carol"], "m:s"⟩).calls = [] :=
  ⟨by decide,
    ((Update_idempotent (fun _ _ => none) (fun _ _ => none) MapOrder.insertion
      MapOrder.insertion ⟨"m", "s", ["bob", "carol"], "m:s"⟩
      ⟨"m", "s", ["alice", "bob"], "m:s"⟩ (by decide)).1 ⟨"m", "s", ["bob", "carol"], "m:s"⟩
      (by decide)).2.1⟩

/-! ## Properties of the SSH keys client -/

theorem errorMessages_eq_filterMap (params : List ErrorResult) :
    errorMessages params = params.filterMap fun e => e.Error.map fun err => err.Message := by
  induction params with
  | nil => rfl
  | cons e rest ih =>
    cases hE : e.Error with
    | none => simp [errorMessages, hE, ih, List.filterMap_cons]
    | some err => simp [errorMessages, hE, ih, List.filterMap_cons]

theorem errorMessages_eq_nil_iff (params : List ErrorResult) :
    errorMessages params = [] ↔ ∀ e ∈ params, e.Error = none := by
  induction params with
  | nil => simp [errorMessages]
  | cons e rest ih =>
    cases hE : e.Error with
    | none => simp [errorMessages, hE, ih]
    | some err => simp [errorMessages, hE]

theorem errorMessages_ne_nil (params : List ErrorResult) (e : ErrorResult) (he : e ∈ params)
    (hE : e.Error ≠ none) : errorMessages params ≠ [] := by
  intro h
  exact hE ((errorMessages_eq_nil_iff params).1 h e he)

/-- The end of `DeleteSSHKey` once `DeleteKeys` is reached: the request is
recorded; entry errors are returned as one error built from their messages, and
an answer without entries returns the error of the call. -/
theorem deleteKeys_spec (DeleteKeys : String → String → List ErrorResult × Option GoError)
    (input : DeleteSSHKeyInput) :
    (sshKeysClient.deleteKeys DeleteKeys input).deleteCalls
      = [⟨input.Username, input.KeyIdentifier⟩] ∧
    (∀ e ∈ (DeleteKeys input.Username input.KeyIdentifier).1, e.Error ≠ none →
      (sshKeysClient.deleteKeys DeleteKeys input).result
        = .ok (some (errorsNew
            (fmtStrings (errorMessages (DeleteKeys input.Username input.KeyIdentifier).1))))) ∧
    ((DeleteKeys input.Username input.KeyIdentifier).1 = [] →
      (sshKeysClient.deleteKeys DeleteKeys input).result
        = .ok (DeleteKeys input.Username input.KeyIdentifier).2) := by
  unfold sshKeysClient.deleteKeys
  rcases hD : DeleteKeys input.Username input.KeyIdentifier with ⟨params, err⟩
  refine ⟨?_, ?_, ?_⟩
  · simp only
    split_ifs <;> rfl
  · intro e he hE
    have hne := errorMessages_ne_nil params e he hE
    have hp : params.length ≠ 0 := by
      intro h
      rw [List.length_eq_zero] at h
      rw [h] at he
      cases he
    have hm : (errorMessages params).length ≠ 0 := by
      intro h
      exact hne (List.length_eq_zero.1 h)
    simp [hp, hm]
  · intro hnil
    simp only at hnil
    subst hnil
    simp

/-- C13, as stated, fails: when the listing holds one result whose first key
has the identifier asked for, `DeleteSSHKey` does not invoke `DeleteKeys` and
returns success; the rejection the remote would have answered is never seen. -/
theorem DeleteSSHKey_last_key_skipped :
    sshKeysClient.DeleteSSHKey none (fun k => k)
        (fun _ => ([⟨none, ["key-a"]⟩], none))
        (fun _ _ => ([⟨some ⟨"cannot remove the last key", ""⟩⟩], none))
        ⟨"admin", "m", "key-a"⟩
      = ⟨.ok none, [],
          ["ssh key from user key-a is the last one and will not be removed"]⟩ := by
  decide

/-- C13, amended: removal of the last key is special-cased.  For a listing that
succeeded: when it holds a single result with exactly one key and that key has
the identifier asked for, `DeleteSSHKey` returns success without invoking
`DeleteKeys`.  When the key asked for is not the only key of the model, and the
listing is not a single result or is a single result whose first key has
another identifier, `DeleteSSHKey` invokes `DeleteKeys` once for that
identifier, and a rejection carried by an entry of the answer is returned as an
error built from the entry messages. -/
theorem DeleteSSHKey_calls_DeleteKeys_unless_last
    (GetKeyIdentifierFromSSHKey : String → String)
    (ListKeys : String → List StringsResult × Option GoError)
    (DeleteKeys : String → String → List ErrorResult × Option GoError)
    (input : DeleteSSHKeyInput) (returnedKeys : List StringsResult)
    (hlist : ListKeys input.Username = (returnedKeys, none)) :
    (∀ only k, returnedKeys = [only] → only.Result = [k] →
      input.KeyIdentifier = GetKeyIdentifierFromSSHKey k →
      (sshKeysClient.DeleteSSHKey none GetKeyIdentifierFromSSHKey ListKeys DeleteKeys
          input).result = .ok none ∧
      (sshKeysClient.DeleteSSHKey none GetKeyIdentifierFromSSHKey ListKeys DeleteKeys
          input).deleteCalls = []) ∧
    ((¬ ∃ k, allKeys returnedKeys = [k] ∧
          input.KeyIdentifier = GetKeyIdentifierFromSSHKey k) →
      (returnedKeys.length ≠ 1 ∨
        ∃ only k rest, returnedKeys = [only] ∧ only.Result = k :: rest ∧
          input.KeyIdentifier ≠ GetKeyIdentifierFromSSHKey k) →
      (sshKeysClient.DeleteSSHKey none GetKeyIdentifierFromSSHKey ListKeys DeleteKeys
          input).deleteCalls = [⟨input.Username, input.KeyIdentifier⟩] ∧
      ∀ e ∈ (DeleteKeys input.Username input.KeyIdentifier).1, e.Error ≠ none →
        (sshKeysClient.DeleteSSHKey none GetKeyIdentifierFromSSHKey ListKeys DeleteKeys
            input).result
          = .ok (some (errorsNew
              (fmtStrings
                (errorMessages (DeleteKeys input.Username input.KeyIdentifier).1))))) := by
  constructor
  · intro only k hret hres hid
    subst hret
    simp [sshKeysClient.DeleteSSHKey, hlist, hres, hid]
  · intro _ hcase
    have hrun : sshKeysClient.DeleteSSHKey none GetKeyIdentifierFromSSHKey ListKeys DeleteKeys
        input = sshKeysClient.deleteKeys DeleteKeys input := by
      rcases hcase with hlen | ⟨only, k, rest, hret, hres, hid⟩
      · unfold sshKeysClient.DeleteSSHKey
        simp only [hlist]
        split
        · simp at hlen
        · rfl
      · subst hret
        simp [sshKeysClient.DeleteSSHKey, hlist, hres, hid]
    rw [hrun]
    exact ⟨(deleteKeys_spec DeleteKeys input).1, (deleteKeys_spec DeleteKeys input).2.1⟩

/-- C13, amended, at a listing of two keys where the second one is deleted and
the remote rejects the request. -/
theorem DeleteSSHKey_calls_DeleteKeys_unless_last_witness :
    (sshKeysClient.DeleteSSHKey none (fun k => k)
        (fun _ => ([⟨none, ["key-a", "key-b"]⟩], none))
        (fun _ _ => ([⟨some ⟨"rejected", ""⟩⟩], none))
        ⟨"admin", "m", "key-b"⟩).deleteCalls = [⟨"admin", "key-b"⟩] ∧
    (sshKeysClient.DeleteSSHKey none (fun k => k)
        (fun _ => ([⟨none, ["key-a", "key-b"]⟩], none))
        (fun _ _ => ([⟨some ⟨"rejected", ""⟩⟩], none))
        ⟨"admin", "m", "key-b"⟩).result = .ok (some (errorsNew "[rejected]")) :=
  ⟨((DeleteSSHKey_calls_DeleteKeys_unless_last (fun k => k)
      (fun _ => ([⟨none, ["key-a", "key-b"]⟩], none))
      (fun _ _ => ([⟨some ⟨"rejected", ""⟩⟩], none))
      ⟨"admin", "m", "key-b"⟩ [⟨none, ["key-a", "key-b"]⟩] rfl).2
      (by
        rintro ⟨k, hk, _⟩
        simp [allKeys] at hk)
      (Or.inr ⟨⟨none, ["key-a", "key-b"]⟩, "key-a", ["key-b"], rfl, rfl, by decide⟩)).1,
    by decide⟩

/-- C14, the code at the failing input: the model holds two keys and the first
one listed has the identifier asked for; `DeleteSSHKey` logs that the key is the
last one, makes no `DeleteKeys` request and returns success. -/
theorem DeleteSSHKey_skips_with_two_keys :
    totalKeys [⟨none, ["key-a", "key-b"]⟩] = 2 ∧
    sshKeysClient.DeleteSSHKey none (fun k => k)
        (fun _ => ([⟨none, ["key-a", "key-b"]⟩], none))
        (fun _ _ => ([⟨none⟩], none))
        ⟨"admin", "m", "key-a"⟩
      = ⟨.ok none, [],
          ["ssh key from user key-a is the last one and will not be removed"]⟩ := by
  decide

/-- C15, the code at the failing input: `DeleteKeys` answers with an error and
with one entry that carries none; `DeleteSSHKey` returns nil. -/
theorem DeleteSSHKey_drops_call_error :
    (sshKeysClient.DeleteSSHKey none (fun k => k)
        (fun _ => ([⟨none, ["key-a", "key-b"]⟩], none))
        (fun _ _ => ([⟨none⟩], some (errorsNew "connection is shut down")))
        ⟨"admin", "m", "key-b"⟩)
      = ⟨.ok none, [⟨"admin", "key-b"⟩], []⟩ ∧
    sshKeysClient.CreateSSHKey none
        (fun _ _ => ([⟨none⟩], some (errorsNew "connection is shut down")))
        ⟨"admin", "m", "ssh-rsa AAAA key-b"⟩
      = some (errorsNew "connection is shut down") := by
  decide

/-- C18, the code at the failing input: the listing holds a single result whose
key list is empty; `returnedKeys[0].Result[0]` is out of range and
`DeleteSSHKey` panics. -/
theorem DeleteSSHKey_panics_on_empty_result :
    (sshKeysClient.DeleteSSHKey none (fun k => k)
        (fun _ => ([⟨none, []⟩], none))
        (fun _ _ => ([⟨none⟩], none))
        ⟨"admin", "m", "key-a"⟩).result = .error (.indexOutOfRange 0 0) ∧
    (sshKeysClient.DeleteSSHKey none (fun k => k)
        (fun _ => ([⟨none, []⟩], none))
        (fun _ _ => ([⟨none⟩], none))
        ⟨"admin", "m", "key-a"⟩).deleteCalls = [] := by
  decide

/-- C19, as stated, fails: when `AddKeys` answers with an error and with an
entry that carries an error, `CreateSSHKey` returns the error of the call,
whose message is not built from the entries. -/
theorem CreateSSHKey_call_error_first :
    sshKeysClient.CreateSSHKey none
        (fun _ _ => ([⟨some ⟨"invalid ssh key", ""⟩⟩], some (errorsNew "connection is shut down")))
        ⟨"admin", "m", "not a key"⟩
      = some (errorsNew "connection is shut down") ∧
    errorsNew "connection is shut down"
      ≠ errorsNew (fmtStrings (errorMessages [⟨some ⟨"invalid ssh key", ""⟩⟩])) := by
  decide

/-- C19, amended: for every answer (results, err) of `AddKeys`, `CreateSSHKey`
returns nil if and only if err is nil and no entry of results carries an error;
when err is nil and some entries carry errors, the returned error is built from
the messages of exactly those entries, in order; when err is not nil it is
returned as it is. -/
theorem CreateSSHKey_result (AddKeys : String → String → List ErrorResult × Option GoError)
    (input : CreateSSHKeyInput) :
    (sshKeysClient.CreateSSHKey none AddKeys input = none ↔
      (AddKeys input.Username input.Payload).2 = none ∧
      ∀ e ∈ (AddKeys input.Username input.Payload).1, e.Error = none) ∧
    ((AddKeys input.Username input.Payload).2 = none →
      (∃ e ∈ (AddKeys input.Username input.Payload).1, e.Error ≠ none) →
      sshKeysClient.CreateSSHKey none AddKeys input
        = some (errorsNew (fmtStrings
            ((AddKeys input.Username input.Payload).1.filterMap
              fun e => e.Error.map fun err => err.Message)))) ∧
    (∀ err, (AddKeys input.Username input.Payload).2 = some err →
      sshKeysClient.CreateSSHKey none AddKeys input = some err) := by
  unfold sshKeysClient.CreateSSHKey
  rcases hA : AddKeys input.Username input.Payload with ⟨results, err⟩
  cases err with
  | some err => simp
  | none =>
    simp only [true_and, forall_true_left]
    by_cases hm : errorMessages results = []
    · have hall := (errorMessages_eq_nil_iff results).1 hm
      refine ⟨?_, ?_, ?_⟩
      · simpa [hm] using hall
      · rintro ⟨e, he, hE⟩
        exact absurd (hall e he) hE
      · intro err h
        cases h
    · have hlen : (errorMessages results).length ≠ 0 := fun h => hm (List.length_eq_zero.1 h)
      have hres : results.length ≠ 0 := by
        intro h
        rw [List.length_eq_zero] at h
        rw [h] at hm
        exact hm rfl
      refine ⟨?_, ?_, ?_⟩
      · simp only [hres, hlen, ne_eq, not_false_eq_true, if_true, if_false]
        constructor
        · intro h
          cases h
        · intro h
          exact absurd ((errorMessages_eq_nil_iff results).2 h) hm
      · intro _
        simp only [hres, hlen, ne_eq, not_false_eq_true, if_true, if_false]
        rw [errorMessages_eq_filterMap]
      · intro err h
        cases h

/-- C19, amended, at an answer with two failing entries around a good one. -/
theorem CreateSSHKey_result_witness :
    sshKeysClient.CreateSSHKey none
        (fun _ _ => ([⟨some ⟨"first", ""⟩⟩, ⟨none⟩, ⟨some ⟨"second", ""⟩⟩], none))
        ⟨"admin", "m", "payload"⟩
      = some (errorsNew "[first second]") :=
  ((CreateSSHKey_result
    (fun _ _ => ([⟨some ⟨"first", ""⟩⟩, ⟨none⟩, ⟨some ⟨"second", ""⟩⟩], none))
    ⟨"admin", "m", "payload"⟩).2.1 rfl ⟨⟨some ⟨"first", ""⟩⟩, by simp, by simp⟩).trans
    (by decide)

/-! ## Properties of `accessSecretResource.ImportState` -/

theorem splitChars_ne_nil (sep : Char) (l : List Char) : splitChars sep l ≠ [] := by
  cases l with
  | nil => simp [splitChars]
  | cons c cs =>
    unfold splitChars
    split_ifs
    · simp
    · split <;> simp

theorem splitChars_of_not_mem (sep : Char) (l : List Char) (h : sep ∉ l) :
    splitChars sep l = [l] := by
  induction l with
  | nil => rfl
  | cons c cs ih =>
    have hc : c ≠ sep := fun hcs => h (hcs ▸ List.mem_cons_self c cs)
    have hcs : sep ∉ cs := fun hm => h (List.mem_cons_of_mem c hm)
    unfold splitChars
    rw [if_neg hc, ih hcs]

theorem splitChars_append_sep (sep : Char) (a rest : List Char) (h : sep ∉ a) :
    splitChars sep (a ++ sep :: rest) = a :: splitChars sep rest := by
  induction a with
  | nil =>
    show splitChars sep (sep :: rest) = _
    rw [splitChars, if_pos rfl]
  | cons c cs ih =>
    have hc : c ≠ sep := fun hcs => h (hcs ▸ List.mem_cons_self c cs)
    have hcs : sep ∉ cs := fun hm => h (List.mem_cons_of_mem c hm)
    show splitChars sep (c :: (cs ++ sep :: rest)) = _
    rw [splitChars, if_neg hc, ih hcs]

/-- A text either holds no separator, or is a first part without separator, a
separator and a rest. -/
theorem exists_first_sep (sep : Char) (l : List Char) :
    sep ∉ l ∨ ∃ a rest, sep ∉ a ∧ l = a ++ sep :: rest := by
  induction l with
  | nil => exact Or.inl (List.not_mem_nil sep)
  | cons c cs ih =>
    by_cases hc : c = sep
    · exact Or.inr ⟨[], cs, List.not_mem_nil sep, by rw [hc]; rfl⟩
    · rcases ih with h | ⟨a, rest, ha, hl⟩
      · left
        intro hm
        rcases List.mem_cons.1 hm with h1 | h1
        · exact hc h1.symm
        · exact h h1
      · right
        refine ⟨c :: a, rest, ?_, by rw [hl]; rfl⟩
        intro hm
        rcases List.mem_cons.1 hm with h1 | h1
        · exact hc h1.symm
        · exact ha h1

theorem splitChars_eq_singleton (sep : Char) (l q : List Char) (h : splitChars sep l = [q]) :
    sep ∉ l ∧ q = l := by
  rcases exists_first_sep sep l with hn | ⟨a, rest, ha, hl⟩
  · rw [splitChars_of_not_mem sep l hn] at h
    exact ⟨hn, (List.cons.inj h).1.symm⟩
  · rw [hl, splitChars_append_sep sep a rest ha] at h
    have hnil := (List.cons.inj h).2
    exact absurd hnil (splitChars_ne_nil sep rest)

/-- Splitting yields exactly the two parts `p` and `q` if and only if the text
is `p`, one separator, `q`, with no separator inside `p` or `q`. -/
theorem splitChars_eq_pair (sep : Char) (l p q : List Char) :
    splitChars sep l = [p, q] ↔ sep ∉ p ∧ sep ∉ q ∧ l = p ++ sep :: q := by
  constructor
  · intro h
    rcases exists_first_sep sep l with hn | ⟨a, rest, ha, hl⟩
    · rw [splitChars_of_not_mem sep l hn] at h
      cases h
    · rw [hl, splitChars_append_sep sep a rest ha] at h
      have h1 := (List.cons.inj h).1
      have h2 := splitChars_eq_singleton sep rest q (List.cons.inj h).2
      subst h1
      rw [h2.2]
      exact ⟨ha, h2.1, hl⟩
  · rintro ⟨hp, hq, hl⟩
    rw [hl, splitChars_append_sep sep p q hp, splitChars_of_not_mem sep q hq]

theorem stringsSplit_eq_pair (ID a b : String) :
    stringsSplit ID ':' = [a, b] ↔
      ':' ∉ a.data ∧ ':' ∉ b.data ∧ ID = a ++ ":" ++ b := by
  have hID : ID = a ++ ":" ++ b ↔ ID.data = a.data ++ ':' :: b.data := by
    constructor
    · intro h
      rw [h]
      simp [String.data_append]
    · intro h
      apply String.ext
      rw [h]
      simp [String.data_append]
  rw [hID, ← splitChars_eq_pair]
  unfold stringsSplit
  constructor
  · intro h
    match hs : splitChars ':' ID.data, h with
    | [p, q], h =>
      simp only [List.map_cons, List.map_nil, List.cons.injEq, and_true] at h
      rw [← h.1, ← h.2]
    | [], h => simp at h
    | [_], h => simp at h
    | _ :: _ :: _ :: _, h => simp at h
  · intro h
    rw [h]
    rfl

/-- C16: with a configured client, `ImportState` accepts the identifier if and
only if splitting it on ':' yields exactly two parts that are both non-empty,
that is when it reads a:b with a and b non-empty and free of ':'.  It then makes
one `ReadSecret` request with a as model UUID and b as secret name, and a as
model UUID of the state it writes; for every other identifier it reports
"Unexpected Import Identifier", makes no request and writes no state. -/
theorem ImportState_identifier (ReadSecret : ReadSecretInput → Except GoError ReadSecretOutput)
    (quote : String → String) (newSecretID : String → String → String) (ID : String) :
    (∀ a b, stringsSplit ID ':' = [a, b] → a ≠ "" → b ≠ "" →
      (ImportState (some ReadSecret) quote newSecretID ID).reads = [⟨a, some b⟩] ∧
      (∀ d ∈ (ImportState (some ReadSecret) quote newSecretID ID).Diagnostics,
        d.summary ≠ "Unexpected Import Identifier") ∧
      (∀ st, (ImportState (some ReadSecret) quote newSecretID ID).State = some st →
        st.ModelUUID = a)) ∧
    ((¬ ∃ a b, stringsSplit ID ':' = [a, b] ∧ a ≠ "" ∧ b ≠ "") →
      ImportState (some ReadSecret) quote newSecretID ID
        = ⟨[], [⟨"Unexpected Import Identifier",
            "Expected import identifier with format: <modeluuid>:<secretname>. Got: "
              ++ quote ID⟩], none⟩) ∧
    ((∃ a b, stringsSplit ID ':' = [a, b] ∧ a ≠ "" ∧ b ≠ "") ↔
      ∃ a b, a ≠ "" ∧ b ≠ "" ∧ ':' ∉ a.data ∧ ':' ∉ b.data ∧ ID = a ++ ":" ++ b) := by
  refine ⟨?_, ?_, ?_⟩
  · intro a b hsplit ha hb
    unfold ImportState
    simp only [hsplit, ha, hb, or_self, if_false]
    cases hR : ReadSecret ⟨a, some b⟩ with
    | error err =>
      refine ⟨rfl, ?_, ?_⟩
      · intro d hd
        simp only [List.mem_singleton] at hd
        rw [hd]
        show "Client Error" ≠ "Unexpected Import Identifier"
        decide
      · intro st hst
        cases hst
    | ok out =>
      refine ⟨rfl, ?_, ?_⟩
      · intro d hd
        cases hd
      · intro st hst
        simp only [Option.some.injEq] at hst
        rw [← hst]
  · intro hno
    unfold ImportState
    simp only
    split
    · rename_i a b hsplit
      by_cases hab : a = "" ∨ b = ""
      · rw [if_pos hab]
      · exact absurd ⟨a, b, hsplit, fun h => hab (Or.inl h), fun h => hab (Or.inr h)⟩ hno
    · rfl
  · constructor
    · rintro ⟨a, b, hsplit, ha, hb⟩
      have h := (stringsSplit_eq_pair ID a b).1 hsplit
      exact ⟨a, b, ha, hb, h.1, h.2.1, h.2.2⟩
    · rintro ⟨a, b, ha, hb, hna, hnb, hID⟩
      exact ⟨a, b, (stringsSplit_eq_pair ID a b).2 ⟨hna, hnb, hID⟩, ha, hb⟩

/-- C16 at the identifiers "uuid:secret" (accepted) and "uuid:secret:extra",
"uuid:" and "nocolon" (refused). -/
theorem ImportState_identifier_witness :
    (ImportState (some fun _ => .ok ⟨"id-1", ["app"]⟩) (fun s => s) (fun m i => m ++ ":" ++ i)
        "uuid:secret").reads = [⟨"uuid", some "secret"⟩] ∧
    (ImportState (some fun _ => .ok ⟨"id-1", ["app"]⟩) (fun s => s) (fun m i => m ++ ":" ++ i)
        "uuid:secret:extra").reads = [] ∧
    (ImportState (some fun _ => .ok ⟨"id-1", ["app"]⟩) (fun s => s) (fun m i => m ++ ":" ++ i)
        "uuid:").State = none ∧
    (ImportState (some fun _ => .ok ⟨"id-1", ["app"]⟩) (fun s => s) (fun m i => m ++ ":" ++ i)
        "nocolon").reads = [] :=
  ⟨((ImportState_identifier (fun _ => .ok ⟨"id-1", ["app"]⟩) (fun s => s)
      (fun m i => m ++ ":" ++ i) "uuid:secret").1 "uuid" "secret" (by decide) (by decide)
      (by decide)).1,
    by decide, by decide, by decide⟩

/-! ## Further properties of `assertActionRunning` and the actions client -/

/-- C17, as stated, fails: a result whose `Error` is itself a `RetryReadError`
is answered with that error, which the wait configuration of `Create` lists as
non fatal, so the result is retried. -/
theorem assertActionRunning_returns_retry_error :
    assertActionRunning ⟨ActionCompleted, "", [], some (NewRetryReadError "try again")⟩
      = some (NewRetryReadError "try again") ∧
    errorsIs (NewRetryReadError "try again") RetryReadError = true ∧
    RetryReadError ∈ (actionWaitCfg (fun _ => false) "m" "1" (fetchSequence [])).NonFatalErrors := by
  decide

/-- C17, amended: for every action result that carries an error,
`assertActionRunning` returns exactly that error whatever the status is, so the
classification is not a function of the status alone (the same status without
error is classified by the status rule); such a result is never accepted, and
it is retried only if the error it carries is itself the `RetryReadError`
marker. -/
theorem assertActionRunning_returns_result_error (r : ActionResult) (err : GoError)
    (hE : r.Error = some err) :
    assertActionRunning r = some err ∧
    assertActionRunning r ≠ none ∧
    assertActionRunning ⟨ActionPending, r.Message, r.Output, some err⟩ = some err ∧
    assertActionRunning ⟨ActionRunning, r.Message, r.Output, some err⟩ = some err ∧
    assertActionRunning ⟨ActionCompleted, r.Message, r.Output, some err⟩ = some err ∧
    assertActionRunning ⟨ActionCompleted, r.Message, r.Output, none⟩ = none ∧
    (∀ e, assertActionRunning r = some e →
      errorsIs e RetryReadError = errorsIs err RetryReadError) := by
  have h := assertActionRunning_of_error r err hE
  refine ⟨h, by rw [h]; simp, rfl, rfl, rfl, rfl, ?_⟩
  intro e he
  rw [h] at he
  rw [Option.some.inj he]

/-- C17, amended, at a completed result that carries a plain error. -/
theorem assertActionRunning_returns_result_error_witness :
    assertActionRunning ⟨ActionCompleted, "", [], some (errorsNew "unit not found")⟩
      = some (errorsNew "unit not found") :=
  (assertActionRunning_returns_result_error
    ⟨ActionCompleted, "", [], some (errorsNew "unit not found")⟩ (errorsNew "unit not found")
    rfl).1

/-- C20, the code at the failing inputs: with no result, and with two results,
the message of `ActionResult` ends with the code point 0, respectively 2, not
with the digit; the same holds for `EnqueueAction`.  With one result it is
returned as it is. -/
theorem actionsClient_count_not_decimal :
    actionsClient.ActionResult none (fun _ => ([], none)) ⟨"m", "1"⟩
      = .error (errorsNew ("expected exactly one action result, got "
          ++ String.singleton (Char.ofNat 0))) ∧
    actionsClient.ActionResult none
        (fun _ => ([resultWithStatus ActionCompleted, resultWithStatus ActionFailed], none))
        ⟨"m", "1"⟩
      = .error (errorsNew ("expected exactly one action result, got "
          ++ String.singleton (Char.ofNat 2))) ∧
    ¬ (Nat.repr 0).data <:+ ("expected exactly one action result, got "
          ++ String.singleton (Char.ofNat 0)).data ∧
    ¬ (Nat.repr 2).data <:+ ("expected exactly one action result, got "
          ++ String.singleton (Char.ofNat 2)).data ∧
    actionsClient.EnqueueAction none ([], none)
      = .error (errorsNew ("expected exactly one enqueued action, got "
          ++ String.singleton (Char.ofNat 0))) ∧
    ¬ (Nat.repr 0).data <:+ ("expected exactly one enqueued action, got "
          ++ String.singleton (Char.ofNat 0)).data ∧
    actionsClient.ActionResult none (fun _ => ([resultWithStatus ActionCompleted], none))
        ⟨"m", "1"⟩ = .ok (resultWithStatus ActionCompleted) ∧
    actionsClient.EnqueueAction none ([⟨some "7"⟩], none) = .ok "7" := by
  decide

end Juju
